import Mathlib

/-!
# Mal-80 TRS-80 Model I emulator — verification of specification claims

This file shallowly embeds the parts of the Mal-80 emulator (a C++ TRS-80
Model I emulator) that the specification claims speak about, and proves or
refutes each claim against that embedding.

Conventions of the embedding:
* machine bytes and 16-bit words are `Nat` with explicit `% 256` / `% 65536`
  (or masks) exactly where the C++ unsigned types truncate;
* C++ member functions become Lean functions from a state structure to a
  state structure (returning a pair when the C++ function also returns a
  value);
* dispatch tables (`main_table`, `ed_table`, …) become functions from the
  opcode byte to a state transformer; only the table entries relevant to the
  claims are embedded, all other entries take the table's default
  ("unknown opcode") handler exactly as the constructor installs it.

Sources embedded: `src/cpu/z80.cpp` / `z80.hpp`, `src/system/Bus.cpp` /
`Bus.hpp`, `src/fdc/FDC.cpp` / `FDC.hpp`, `Emulator.cpp`
(`deliver_interrupt`, `step_frame` counters), `SoftwareLoader.cpp`
(`find_cas_file`).
-/

namespace Mal80

/-! ## Z80 flag constants (z80.hpp) -/

def FLAG_C  : Nat := 0x01
def FLAG_N  : Nat := 0x02
def FLAG_P  : Nat := 0x04
def FLAG_F3 : Nat := 0x08
def FLAG_H  : Nat := 0x10
def FLAG_F5 : Nat := 0x20
def FLAG_Z  : Nat := 0x40
def FLAG_S  : Nat := 0x80

/-- `Z80::set_flag`: set or clear a flag bit in an F byte
(`reg.f |= flag` / `reg.f &= ~flag`, with `~` the 8-bit complement). -/
def setFlag (f flag : Nat) (value : Bool) : Nat :=
  if value then f ||| flag else f &&& (0xFF ^^^ flag)

/-- `Z80::get_flag`: `(reg.f & flag) != 0`. -/
def getFlag (f flag : Nat) : Bool := f &&& flag != 0

/-- `Z80::parity`: fold the byte's bits by xor; true iff even parity. -/
def parity (v : Nat) : Bool :=
  let v := v ^^^ (v >>> 4)
  let v := v ^^^ (v >>> 2)
  let v := v ^^^ (v >>> 1)
  (v &&& 1) == 0

/-- `Z80::set_zf`. -/
def setZf (f val : Nat) : Nat := setFlag f FLAG_Z (val == 0)

/-- `Z80::set_sf`. -/
def setSf (f val : Nat) : Nat := setFlag f FLAG_S (val &&& 0x80 != 0)

/-- `Z80::set_pf`. -/
def setPf (f val : Nat) : Nat := setFlag f FLAG_P (parity val)

/-- `Z80::set_f35`: copy bits 3 and 5 of `val` into F. -/
def setF35 (f val : Nat) : Nat :=
  (f &&& (0xFF ^^^ (FLAG_F3 ||| FLAG_F5))) ||| (val &&& (FLAG_F3 ||| FLAG_F5))

/-! ## DAA (`Z80::op_daa`, z80.cpp)

The accumulator and flag byte are passed and returned explicitly; the C++
`uint8_t` subtractions `a -= 6` / `a -= 0x60` wrap modulo 256, embedded as
addition of the 8-bit two's complements. -/

/-- `Z80::op_daa` on an (A, F) pair; returns the new (A, F). -/
def opDaa (a0 f0 : Nat) : Nat × Nat :=
  let old_a := a0
  let n_flag := getFlag f0 FLAG_N
  let half := getFlag f0 FLAG_H
  let carry := getFlag f0 FLAG_C
  let a1 :=
    if n_flag then
      let a := if half || decide ((old_a &&& 0x0F) > 9) then (a0 + 250) % 256 else a0
      if carry || decide (old_a > 0x99) then (a + 160) % 256 else a
    else
      let a := if half || decide ((old_a &&& 0x0F) > 9) then (a0 + 6) % 256 else a0
      if carry || decide (old_a > 0x99) then (a + 0x60) % 256 else a
  let f1 := (f0 &&& (FLAG_C ||| FLAG_N))
              ||| (if old_a > 0x99 then FLAG_C else 0)
              ||| ((old_a ^^^ a1) &&& FLAG_H)
  let f1 := setSf f1 a1
  let f1 := setZf f1 a1
  let f1 := setPf f1 a1
  let f1 := setF35 f1 a1
  (a1, f1)

end Mal80

namespace Mal80

/-- The property C5 asserts of a single pre-DAA state. -/
def daaClaimAt (a f : Nat) : Prop :=
  let r := opDaa a f
  (getFlag r.2 FLAG_C = (getFlag f FLAG_C || decide (a > 0x99))) ∧
  (r.2 &&& FLAG_H = (a ^^^ r.1) &&& 0x10) ∧
  (getFlag f FLAG_N = true →
     r.1 = ((if getFlag f FLAG_H || decide ((a &&& 0x0F) > 9) then (a + 250) % 256 else a)
             + (if getFlag f FLAG_C || decide (a > 0x99) then 160 else 0)) % 256) ∧
  (getFlag f FLAG_N = false →
     r.1 = ((if getFlag f FLAG_H || decide ((a &&& 0x0F) > 9) then (a + 6) % 256 else a)
             + (if getFlag f FLAG_C || decide (a > 0x99) then 0x60 else 0)) % 256)

instance (a f : Nat) : Decidable (daaClaimAt a f) := by
  unfold daaClaimAt; infer_instance

end Mal80

namespace Mal80

lemma setF35_eq (g a : Nat) : setF35 g a = (g &&& 0xD7) ||| (a &&& 0x28) := by
  unfold setF35 FLAG_F3 FLAG_F5
  rw [show ((8 : Nat) ||| 32) = 40 by decide, show ((0xFF : Nat) ^^^ 40) = 0xD7 by decide]

lemma tb_setFlag (f fl : Nat) (v : Bool) (k : Nat) (hk : k < 8) (hfl : fl.testBit k = false) :
    (setFlag f fl v).testBit k = f.testBit k := by
  unfold setFlag
  cases v <;> simp [Nat.testBit_lor, Nat.testBit_land, Nat.testBit_xor, hfl]
  rw [show (0xFF : Nat) = 2 ^ 8 - 1 by norm_num, Nat.testBit_two_pow_sub_one]
  simp [hk]

lemma tb_f1 (g a1 : Nat) (k : Nat) (hk : k < 8)
    (h80 : (0x80 : Nat).testBit k = false) (h40 : (0x40 : Nat).testBit k = false)
    (h04 : (0x04 : Nat).testBit k = false) :
    (setF35 (setPf (setZf (setSf g a1) a1) a1) a1).testBit k
      = ((g &&& 0xD7) ||| (a1 &&& 0x28)).testBit k := by
  rw [setF35_eq]
  simp only [Nat.testBit_lor, Nat.testBit_land]
  unfold setPf setZf setSf FLAG_P FLAG_Z FLAG_S
  rw [tb_setFlag _ _ _ _ hk h04, tb_setFlag _ _ _ _ hk h40, tb_setFlag _ _ _ _ hk h80]

lemma tb0_maskD7 (g a : Nat) : ((g &&& 0xD7) ||| (a &&& 0x28)).testBit 0 = g.testBit 0 := by
  simp [Nat.testBit_lor, Nat.testBit_land]

lemma tb0_base (f0 a0 a1 : Nat) :
    (((f0 &&& (FLAG_C ||| FLAG_N)) ||| (if a0 > 0x99 then FLAG_C else 0)) ||| ((a0 ^^^ a1) &&& FLAG_H)).testBit 0
      = (f0.testBit 0 || decide (a0 > 0x99)) := by
  unfold FLAG_C FLAG_N FLAG_H
  split <;> simp [Nat.testBit_lor, Nat.testBit_land] <;> omega

lemma tb4_maskD7 (g a : Nat) : ((g &&& 0xD7) ||| (a &&& 0x28)).testBit 4 = g.testBit 4 := by
  have h1 : Nat.testBit 215 4 = true := by decide
  have h2 : Nat.testBit 40 4 = false := by decide
  simp [Nat.testBit_lor, Nat.testBit_land, h1, h2]

lemma tb4_base (f0 a0 a1 : Nat) :
    (((f0 &&& (FLAG_C ||| FLAG_N)) ||| (if a0 > 0x99 then FLAG_C else 0)) ||| ((a0 ^^^ a1) &&& FLAG_H)).testBit 4
      = (a0 ^^^ a1).testBit 4 := by
  unfold FLAG_C FLAG_N FLAG_H
  have h1 : Nat.testBit 3 4 = false := by decide
  have h2 : Nat.testBit 1 4 = false := by decide
  have h3 : Nat.testBit 16 4 = true := by decide
  split <;> simp [Nat.testBit_lor, Nat.testBit_land, Nat.testBit_xor, h1, h2, h3]

lemma getFlag_C_tb0 (x : Nat) : getFlag x FLAG_C = x.testBit 0 := by
  unfold getFlag FLAG_C
  have h : x &&& 1 = x % 2 := Nat.and_one_is_mod x
  rw [h, Nat.testBit_zero]
  rcases Nat.mod_two_eq_zero_or_one x with h2 | h2 <;> simp [h2]

lemma and_sixteen (x : Nat) : x &&& 16 = (x.testBit 4).toNat * 16 := by
  rw [show (16 : Nat) = 2 ^ 4 by norm_num, Nat.and_two_pow]

lemma and16_congr (x y : Nat) (h : x.testBit 4 = y.testBit 4) : x &&& 16 = y &&& 16 := by
  rw [and_sixteen, and_sixteen, h]

/-- C5: for every pre-DAA state (A, F), after `Z80::op_daa` the carry flag
equals (old C) OR (old A > 0x99), the half-carry flag equals bit 4 of
(old A XOR new A), and the adjustment subtracts 0x06 / 0x60 (mod 256) under
the N-set conditions, with the mirrored additions when N is clear. -/
theorem C5_daa_contract (a f : Nat) (ha : a < 256) : daaClaimAt a f := by
  unfold daaClaimAt opDaa
  refine ⟨?_, ?_, ?_, ?_⟩
  · rw [getFlag_C_tb0, getFlag_C_tb0]
    rw [tb_f1 _ _ 0 (by norm_num) (by decide) (by decide) (by decide), tb0_maskD7, tb0_base]
  · exact and16_congr _ _ (by
      rw [tb_f1 _ _ 4 (by norm_num) (by decide) (by decide) (by decide), tb4_maskD7, tb4_base])
  · intro hn
    simp only [hn, if_true]
    split <;> split <;> omega
  · intro hn
    simp only [hn, Bool.false_eq_true, if_false]
    split <;> split <;> omega

/-- Witness for C5 at the concrete pre-state A = 0x9A, F = 0x13. -/
theorem C5_daa_contract_witness : 0x9A < 256 ∧ daaClaimAt 0x9A 0x13 :=
  ⟨by norm_num, C5_daa_contract 0x9A 0x13 (by norm_num)⟩

end Mal80

namespace Mal80

/-! ## FD1771 floppy controller (FDC.cpp / FDC.hpp)

Byte arrays are embedded as `List Nat` (disk images, with their length) or as
functions `Nat → Nat` (the fixed 256-byte transfer buffer). `head_track` is
kept as a `Nat` (the C++ `int` is clamped to `[0, MAX_TRACKS)` at every
assignment, so it is never negative); the step direction is an `Int`. -/

def ST_BUSY     : Nat := 0x01
def ST_DRQ      : Nat := 0x02
def ST_TRACK0   : Nat := 0x04
def ST_RNF      : Nat := 0x10
def ST_RECTYPE  : Nat := 0x20
def ST_NOTREADY : Nat := 0x80

def SECTORS_PER_TRACK : Nat := 10
def BYTES_PER_SECTOR : Nat := 256
def MAX_TRACKS : Nat := 35

/-- `FDC::Drive`. -/
structure Drive where
  image : List Nat
  headTrack : Nat
  loaded : Bool

/-- `FDC` state. -/
structure FDCState where
  status : Nat
  track : Nat
  sector : Nat
  data : Nat
  driveSel : Nat
  lastDrive : Fin 4
  drives : Fin 4 → Drive
  buf : Nat → Nat
  bufPos : Nat
  bufLen : Nat
  writePending : Bool
  writeTrack : Nat
  writeSector : Nat
  intrq : Bool
  lastDir : Int

/-- FDC member initialisers (FDC.hpp). -/
def fdcInit : FDCState where
  status := 0
  track := 0
  sector := 0
  data := 0
  driveSel := 0
  lastDrive := 0
  drives := fun _ => ⟨[], 0, false⟩
  buf := fun _ => 0
  bufPos := 0
  bufLen := 0
  writePending := false
  writeTrack := 0
  writeSector := 0
  intrq := false
  lastDir := 1

/-- `FDC::current_drive`: bits 0-2 of the select latch pick drives 0-2,
falling back to the last explicitly selected drive. -/
def currentDrive (s : FDCState) : Fin 4 :=
  if s.driveSel &&& 1 != 0 then 0
  else if s.driveSel &&& 2 != 0 then 1
  else if s.driveSel &&& 4 != 0 then 2
  else s.lastDrive

/-- `FDC::active_drive`: the selected drive index when it has a disk loaded. -/
def activeDrive (s : FDCState) : Option (Fin 4) :=
  let i := currentDrive s
  if (s.drives i).loaded then some i else none

/-- `FDC::select_drive`. -/
def selectDrive (s : FDCState) (val : Nat) : FDCState :=
  let last :=
    if val &&& 1 != 0 then (0 : Fin 4)
    else if val &&& 2 != 0 then 1
    else if val &&& 4 != 0 then 2
    else if val &&& 8 != 0 then 3
    else s.lastDrive
  { s with driveSel := val, lastDrive := last }

/-- `FDC::Drive::read_sector`: 256 bytes from the image at the JV1 offset,
or all zeroes when the sector extends past the image. -/
def driveReadSector (d : Drive) (track sector : Nat) : Nat → Nat :=
  let offset := (track * SECTORS_PER_TRACK + sector) * BYTES_PER_SECTOR
  fun j =>
    if offset + BYTES_PER_SECTOR ≤ d.image.length then d.image.getD (offset + j) 0
    else 0

/-- `FDC::Drive::write_sector`: extend the image to cover the sector if
needed, then overwrite the 256 bytes at the JV1 offset. -/
def driveWriteSector (d : Drive) (track sector : Nat) (data : Nat → Nat) : Drive :=
  let offset := (track * SECTORS_PER_TRACK + sector) * BYTES_PER_SECTOR
  let img := if offset + BYTES_PER_SECTOR > d.image.length
             then d.image ++ List.replicate (offset + BYTES_PER_SECTOR - d.image.length) 0
             else d.image
  { d with image :=
      img.take offset ++ (List.range BYTES_PER_SECTOR).map data ++ img.drop (offset + BYTES_PER_SECTOR) }

/-- `FDC::cmd_restore`. -/
def cmdRestore (s : FDCState) : FDCState :=
  match activeDrive s with
  | none => { s with status := ST_NOTREADY, intrq := true }
  | some i =>
      { s with drives := Function.update s.drives i { s.drives i with headTrack := 0 },
               track := 0, status := ST_TRACK0, intrq := true }

/-- `FDC::cmd_seek`: target from the data register, clamped to the track
range; records the step direction. -/
def cmdSeek (s : FDCState) : FDCState :=
  match activeDrive s with
  | none => { s with status := ST_NOTREADY, intrq := true }
  | some i =>
      let target := if s.data ≥ MAX_TRACKS then MAX_TRACKS - 1 else s.data
      { s with lastDir := if target > (s.drives i).headTrack then 1 else -1,
               drives := Function.update s.drives i { s.drives i with headTrack := target },
               track := target,
               status := if target = 0 then ST_TRACK0 else 0,
               intrq := true }

/-- `FDC::cmd_step`. -/
def cmdStep (s : FDCState) (dir : Int) (updateTrack : Bool) : FDCState :=
  match activeDrive s with
  | none => { s with status := ST_NOTREADY, intrq := true }
  | some i =>
      let next0 : Int := ((s.drives i).headTrack : Int) + dir
      let next : Nat := if next0 < 0 then 0
                        else if next0 ≥ (MAX_TRACKS : Int) then MAX_TRACKS - 1
                        else next0.toNat
      { s with lastDir := dir,
               drives := Function.update s.drives i { s.drives i with headTrack := next },
               track := if updateTrack then next else s.track,
               status := if next = 0 then ST_TRACK0 else 0,
               intrq := true }

/-- `FDC::cmd_read_sector`. -/
def cmdReadSector (s : FDCState) : FDCState :=
  match activeDrive s with
  | none => { s with status := ST_NOTREADY, intrq := true }
  | some i =>
      let t := (s.drives i).headTrack
      let sec := s.sector
      if sec ≥ SECTORS_PER_TRACK ∨ t ≥ MAX_TRACKS then
        { s with status := ST_RNF, intrq := true }
      else
        { s with buf := driveReadSector (s.drives i) t sec,
                 bufPos := 0, bufLen := BYTES_PER_SECTOR,
                 status := ST_BUSY ||| ST_DRQ ||| (if t = 17 then ST_RECTYPE else 0) }

/-- `FDC::cmd_write_sector`. -/
def cmdWriteSector (s : FDCState) : FDCState :=
  match activeDrive s with
  | none => { s with status := ST_NOTREADY, intrq := true }
  | some i =>
      let t := (s.drives i).headTrack
      let sec := s.sector
      if sec ≥ SECTORS_PER_TRACK ∨ t ≥ MAX_TRACKS then
        { s with status := ST_RNF, intrq := true }
      else
        { s with writePending := true, writeTrack := t, writeSector := sec,
                 bufPos := 0, bufLen := BYTES_PER_SECTOR,
                 status := ST_BUSY ||| ST_DRQ }

/-- `FDC::cmd_read_address`: synthesise the 6-byte ID field in the buffer. -/
def cmdReadAddress (s : FDCState) : FDCState :=
  match activeDrive s with
  | none => { s with status := ST_NOTREADY, intrq := true }
  | some i =>
      let trk := (s.drives i).headTrack
      let sec := s.sector
      let buf := fun j =>
        if j = 0 then trk else if j = 1 then 0 else if j = 2 then sec
        else if j = 3 then 1 else if j = 4 then 0 else if j = 5 then 0
        else s.buf j
      { s with buf := buf, bufPos := 0, bufLen := 6, track := trk,
               status := ST_BUSY ||| ST_DRQ }

/-- `FDC::cmd_force_interrupt`: clear BUSY|DRQ; raise INTRQ iff bit 3 set. -/
def cmdForceInterrupt (s : FDCState) (cmd : Nat) : FDCState :=
  let s := { s with status := s.status &&& (0xFF ^^^ (ST_BUSY ||| ST_DRQ)) }
  if cmd &&& 0x08 != 0 then { s with intrq := true } else s

/-- `FDC::execute_command`: cancel any transfer, clear INTRQ, dispatch on the
high nibble. -/
def executeCommand (s : FDCState) (cmd : Nat) : FDCState :=
  let s := { s with bufLen := 0, bufPos := 0, writePending := false, intrq := false }
  let ty := cmd >>> 4
  if ty = 0x0 then cmdRestore s
  else if ty = 0x1 then cmdSeek s
  else if ty = 0x2 then cmdStep s s.lastDir false
  else if ty = 0x3 then cmdStep s s.lastDir true
  else if ty = 0x4 then cmdStep s 1 false
  else if ty = 0x5 then cmdStep s 1 true
  else if ty = 0x6 then cmdStep s (-1) false
  else if ty = 0x7 then cmdStep s (-1) true
  else if ty = 0x8 ∨ ty = 0x9 then cmdReadSector s
  else if ty = 0xA ∨ ty = 0xB then cmdWriteSector s
  else if ty = 0xC then cmdReadAddress s
  else if ty = 0xD then cmdForceInterrupt s cmd
  else cmdForceInterrupt s 0xD0

/-- `FDC::read`: register read; returns the byte and the new state. -/
def fdcRead (s : FDCState) (addr : Nat) : Nat × FDCState :=
  if addr = 0x37EC then (s.status, { s with intrq := false })
  else if addr = 0x37ED then (s.track, s)
  else if addr = 0x37EE then (s.sector, s)
  else if addr = 0x37EF then
    if s.bufLen > 0 ∧ s.bufPos < s.bufLen then
      let d := s.buf s.bufPos
      let pos := s.bufPos + 1
      if pos ≥ s.bufLen then
        (d, { s with data := d, bufPos := pos, bufLen := 0,
                     status := s.status &&& (0xFF ^^^ (ST_BUSY ||| ST_DRQ)),
                     intrq := true })
      else
        (d, { s with data := d, bufPos := pos })
    else (s.data, s)
  else (0xFF, s)

/-- `FDC::write`: register write. -/
def fdcWrite (s : FDCState) (addr val : Nat) : FDCState :=
  if addr = 0x37E0 ∨ addr = 0x37E1 ∨ addr = 0x37E2 ∨ addr = 0x37E3 then
    selectDrive s val
  else if addr = 0x37EC then executeCommand s val
  else if addr = 0x37ED then { s with track := val }
  else if addr = 0x37EE then { s with sector := val }
  else if addr = 0x37EF then
    let s := { s with data := val }
    if s.writePending ∧ s.bufLen > 0 ∧ s.bufPos < s.bufLen then
      let s := { s with buf := Function.update s.buf s.bufPos val }
      let pos := s.bufPos + 1
      if pos ≥ s.bufLen then
        let s :=
          match activeDrive s with
          | some i =>
              let d := driveWriteSector (s.drives i) s.writeTrack s.writeSector s.buf
              { s with drives := Function.update s.drives i d }
          | none => s
        { s with bufPos := pos, bufLen := 0, writePending := false,
                 status := s.status &&& (0xFF ^^^ (ST_BUSY ||| ST_DRQ)),
                 intrq := true }
      else { s with bufPos := pos }
    else s
  else s

end Mal80

namespace Mal80

/-! ## Bus (Bus.cpp / Bus.hpp)

Memory arrays are embedded as functions `Nat → Nat` (indexed by the address
or the offset within the array, as in the source), the ROM-shadow active
flags as `Nat → Bool`. Cassette recording/playback state is carried in
full; the host-facing string fields (filenames, log counters) are omitted
as they never feed back into the embedded behaviour. -/

def ROM_END : Nat := 0x2FFF
def ROM_SIZE : Nat := 0x3000
def KEYBOARD_START : Nat := 0x3800
def KEYBOARD_END : Nat := 0x3BFF
def VRAM_START : Nat := 0x3C00
def VRAM_END : Nat := 0x3FFF
def RAM_START : Nat := 0x4000
def RAM_END : Nat := 0xFFFF
def VIDEO_SCANLINE_START : Nat := 48
def VIDEO_SCANLINE_END : Nat := 48 + 192
def VIDEO_TOTAL_SCANLINES : Nat := 262
def VIDEO_T_STATES_PER_SCANLINE : Nat := 114
def VIDEO_T_STATES_PER_FRAME : Nat := 29498

def CAS_BIT_PERIOD : Nat := 3548
def CAS_HALF_0 : Nat := 1774
def CAS_HALF_1 : Nat := 887
def CAS_CYCLE_THRESH : Nat := 2600
def CAS_IDLE_TIMEOUT : Nat := 200000

inductive CassetteState where
  | IDLE
  | PLAYING
  | RECORDING
deriving DecidableEq

/-- `Bus` state. -/
structure BusState where
  rom : Nat → Nat
  vram : Nat → Nat
  ram : Nat → Nat
  keyboardMatrix : Option (Nat → Nat)
  globalTStates : Nat
  currentScanline : Nat
  tStatesInScanline : Nat
  intPending : Bool
  intForLatch : Bool
  iffEnabled : Bool
  casState : CassetteState
  casData : List Nat
  casPlaybackStartT : Nat
  casRecData : List Nat
  casLastCycleT : Nat
  casRecCycleCount : Nat
  casRecByte : Nat
  casRecBitCount : Nat
  casPrevPortVal : Nat
  casLastActivityT : Nat
  romShadow : Nat → Nat
  romShadowActive : Nat → Bool
  fdc : FDCState
  flatMode : Bool
  flatMem : Nat → Nat

/-- `Bus::reset`. -/
def busReset (s : BusState) : BusState :=
  { s with rom := fun _ => 0x00,
           vram := fun _ => 0x20,
           ram := fun _ => 0x00,
           romShadow := fun _ => 0x00,
           romShadowActive := fun _ => false,
           globalTStates := 0,
           currentScanline := 0,
           tStatesInScanline := 0,
           intPending := false,
           intForLatch := false,
           iffEnabled := true,
           casState := CassetteState.IDLE,
           casData := [],
           casRecData := [],
           casPrevPortVal := 0 }

/-- The `Bus` member initialisers of Bus.hpp, before `reset()` runs. -/
def busDefault : BusState where
  rom := fun _ => 0
  vram := fun _ => 0
  ram := fun _ => 0
  keyboardMatrix := none
  globalTStates := 0
  currentScanline := 0
  tStatesInScanline := 0
  intPending := false
  intForLatch := false
  iffEnabled := true
  casState := CassetteState.IDLE
  casData := []
  casPlaybackStartT := 0
  casRecData := []
  casLastCycleT := 0
  casRecCycleCount := 0
  casRecByte := 0
  casRecBitCount := 0
  casPrevPortVal := 0
  casLastActivityT := 0
  romShadow := fun _ => 0
  romShadowActive := fun _ => false
  fdc := fdcInit
  flatMode := false
  flatMem := fun _ => 0

/-- `Bus::Bus()`: construct and `reset()`. -/
def busInit : BusState := busReset busDefault

/-- `Bus::update_video_timing`. -/
def updateVideoTiming (t : Nat) (s : BusState) : BusState :=
  let til := s.tStatesInScanline + t
  if til ≥ VIDEO_T_STATES_PER_SCANLINE then
    let til := til - VIDEO_T_STATES_PER_SCANLINE
    let sc := s.currentScanline + 1
    if sc ≥ VIDEO_TOTAL_SCANLINES then
      if s.iffEnabled then
        { s with tStatesInScanline := til, currentScanline := 0,
                 intPending := true, intForLatch := true }
      else
        { s with tStatesInScanline := til, currentScanline := 0 }
    else
      { s with tStatesInScanline := til, currentScanline := sc }
  else
    { s with tStatesInScanline := til }

/-- `Bus::add_ticks`. -/
def addTicks (t : Nat) (s : BusState) : BusState :=
  updateVideoTiming t { s with globalTStates := s.globalTStates + t }

/-- `Bus::is_visible_scanline`. -/
def isVisibleScanline (s : BusState) : Bool :=
  VIDEO_SCANLINE_START ≤ s.currentScanline ∧ s.currentScanline < VIDEO_SCANLINE_END

/-- `Bus::should_insert_wait_state`. -/
def shouldInsertWaitState (s : BusState) (addr : Nat) (isM1 : Bool) : Bool :=
  if !isM1 then false
  else if addr < VRAM_START ∨ addr > VRAM_END then false
  else if !isVisibleScanline s then false
  else
    let tInLine := s.tStatesInScanline % VIDEO_T_STATES_PER_SCANLINE
    30 ≤ tInLine ∧ tInLine ≤ 90

/-- `Bus::read`: returns the byte and the new bus state. -/
def busRead (s : BusState) (addr : Nat) (isM1 : Bool) : Nat × BusState :=
  if s.flatMode then (s.flatMem addr, s)
  else
    let s := if shouldInsertWaitState s addr isM1
             then updateVideoTiming 2 { s with globalTStates := s.globalTStates + 2 }
             else s
    if addr ≤ ROM_END then
      (if s.romShadowActive addr then s.romShadow addr else s.rom addr, s)
    else if KEYBOARD_START ≤ addr ∧ addr ≤ KEYBOARD_END then
      match s.keyboardMatrix with
      | some km =>
          let rowSelect := addr &&& 0xFF
          ((List.range 8).foldl
            (fun v row => if rowSelect &&& (1 <<< row) != 0 then v ||| km row else v) 0, s)
      | none => (0, s)
    else if VRAM_START ≤ addr ∧ addr ≤ VRAM_END then
      (s.vram (addr - VRAM_START), s)
    else if RAM_START ≤ addr ∧ addr ≤ RAM_END then
      (s.ram (addr - RAM_START), s)
    else if 0x37E0 ≤ addr ∧ addr ≤ 0x37EF then
      if addr ≤ 0x37E3 then
        ((if s.intForLatch then 0x80 else 0x00) ||| (if s.fdc.intrq then 0x40 else 0x00),
         { s with intPending := false, intForLatch := false })
      else if addr ≤ 0x37E7 then (0xFF, s)
      else if addr ≤ 0x37EB then (0x30, s)
      else
        let r := fdcRead s.fdc addr
        (r.1, { s with fdc := r.2 })
    else (0xFF, s)

/-- `Bus::write`. -/
def busWrite (s : BusState) (addr val : Nat) : BusState :=
  if s.flatMode then { s with flatMem := Function.update s.flatMem addr val }
  else if addr ≤ ROM_END then
    { s with romShadow := Function.update s.romShadow addr val,
             romShadowActive := Function.update s.romShadowActive addr true }
  else if 0x37E0 ≤ addr ∧ addr ≤ 0x37EF then
    { s with fdc := fdcWrite s.fdc addr val }
  else if VRAM_START ≤ addr ∧ addr ≤ VRAM_END then
    { s with vram := Function.update s.vram (addr - VRAM_START) val }
  else if RAM_START ≤ addr ∧ addr ≤ RAM_END then
    { s with ram := Function.update s.ram (addr - RAM_START) val }
  else s

/-- `Bus::peek`: side-effect-free read. -/
def busPeek (s : BusState) (addr : Nat) : Nat :=
  if s.flatMode then s.flatMem addr
  else if addr ≤ ROM_END then
    if s.romShadowActive addr then s.romShadow addr else s.rom addr
  else if KEYBOARD_START ≤ addr ∧ addr ≤ KEYBOARD_END then 0x00
  else if VRAM_START ≤ addr ∧ addr ≤ VRAM_END then s.vram (addr - VRAM_START)
  else if RAM_START ≤ addr then s.ram (addr - RAM_START)
  else 0xFF

/-- `Bus::interrupt_pending`. -/
def interruptPending (s : BusState) : Bool := s.intPending || s.fdc.intrq

/-- `Bus::clear_interrupt`: clears the timer delivery flag only. -/
def clearInterrupt (s : BusState) : BusState := { s with intPending := false }

end Mal80

namespace Mal80

/-! ## Video timing closed form (cold boot, one tick at a time)

`busTickN n` is the bus state after `add_ticks(1)` has been called `n` times
from the cold-boot state. The closed form shows the scanline machine wraps
(and first raises the interrupt latches) after 262 × 114 = 29,868 ticks. -/

/-- `n` calls of `Bus::add_ticks(1)` from cold boot. -/
def busTickN (n : Nat) : BusState := (addTicks 1)^[n] busInit

lemma busTickN_succ (n : Nat) : busTickN (n + 1) = addTicks 1 (busTickN n) := by
  unfold busTickN
  rw [Function.iterate_succ_apply']

/-- Closed form of the cold-boot video-timing iteration: counters follow
division by 114 and 262, and the interrupt flags first rise at tick
262 × 114 = 29,868. -/
lemma busTickN_closed (n : Nat) :
    (busTickN n).tStatesInScanline = n % 114 ∧
    (busTickN n).currentScanline = (n / 114) % 262 ∧
    (busTickN n).intPending = decide (29868 ≤ n) ∧
    (busTickN n).intForLatch = decide (29868 ≤ n) ∧
    (busTickN n).iffEnabled = true ∧
    (busTickN n).globalTStates = n ∧
    (busTickN n).fdc = fdcInit := by
  induction n with
  | zero =>
      refine ⟨rfl, rfl, by rfl, by rfl, rfl, rfl, rfl⟩
  | succ n ih =>
      obtain ⟨h1, h2, h3, h4, h5, h6, h7⟩ := ih
      rw [busTickN_succ]
      simp only [addTicks, updateVideoTiming, VIDEO_T_STATES_PER_SCANLINE, VIDEO_TOTAL_SCANLINES]
      by_cases hA : (busTickN n).tStatesInScanline + 1 ≥ 114
      · by_cases hB : (busTickN n).currentScanline + 1 ≥ 262
        · simp only [if_pos hA, if_pos hB, if_pos (show (busTickN n).iffEnabled = true from h5)]
          refine ⟨by omega, by omega, ?_, ?_, h5, by omega, h7⟩ <;>
            · symm
              simp only [decide_eq_true_eq]
              omega
        · simp only [if_pos hA, if_neg hB]
          refine ⟨by omega, by omega, ?_, ?_, h5, by omega, h7⟩ <;>
            · first
              | rw [h3]
              | rw [h4]
              simp only [decide_eq_decide]
              omega
      · simp only [if_neg hA]
        refine ⟨by omega, by omega, ?_, ?_, h5, by omega, h7⟩ <;>
          · first
            | rw [h3]
            | rw [h4]
            simp only [decide_eq_decide]
            omega

end Mal80

namespace Mal80

/-! ## Z80 CPU (z80.cpp / z80.hpp)

Register pairs are stored as their 16-bit union view (`bc`, `de`, `hl`, …),
exactly the value the C++ union holds; assignments reduce modulo 2^16 where
the C++ `uint16_t` wraps. `Z80::step` and the dispatch tables are embedded
for the opcodes the claims exercise: the four prefix bytes DD/FD/CB/ED,
NOP, HALT, DI, EI in the main bank; RETN (0x45), RETI (0x4D) and LDIR
(0xB0) in the ED bank; LD IX,nn (0x21) in the DD bank. Every other entry of
each bank takes that bank's default handler, which (as installed by the
constructor) only charges 4 T-states. No other handler in the source
assigns `iff1` or `iff2`. -/

/-- `Z80::Registers` plus the `Z80` execution fields. -/
structure CPUState where
  a : Nat
  f : Nat
  bc : Nat
  de : Nat
  hl : Nat
  sp : Nat
  pc : Nat
  a2 : Nat
  f2 : Nat
  bc2 : Nat
  de2 : Nat
  hl2 : Nat
  ix : Nat
  iy : Nat
  i : Nat
  r : Nat
  iff1 : Bool
  iff2 : Bool
  im : Nat
  halted : Bool
  tStates : Nat
  prefixByte : Nat
  isM1Cycle : Bool

/-- The zero-initialised register file (`reg = {}`). -/
def cpuZero : CPUState where
  a := 0
  f := 0
  bc := 0
  de := 0
  hl := 0
  sp := 0
  pc := 0
  a2 := 0
  f2 := 0
  bc2 := 0
  de2 := 0
  hl2 := 0
  ix := 0
  iy := 0
  i := 0
  r := 0
  iff1 := false
  iff2 := false
  im := 0
  halted := false
  tStates := 0
  prefixByte := 0
  isM1Cycle := true

/-- `Z80::reset`. -/
def cpuReset (_s : CPUState) : CPUState :=
  { cpuZero with pc := 0x0000, sp := 0xFFFF, tStates := 0, prefixByte := 0x00 }

/-- CPU together with the bus it reads and writes. -/
structure Machine where
  cpu : CPUState
  bus : BusState

/-- `Z80::add_ticks`. -/
def addT (t : Nat) (m : Machine) : Machine :=
  { m with cpu := { m.cpu with tStates := m.cpu.tStates + t } }

/-- `Z80::read_mem`. -/
def readMem (m : Machine) (addr : Nat) (isM1 : Bool) : Nat × Machine :=
  let r := busRead m.bus addr isM1
  (r.1, { m with bus := r.2 })

/-- `Z80::write_mem`. -/
def writeMem (m : Machine) (addr val : Nat) : Machine :=
  { m with bus := busWrite m.bus addr val }

/-- `Z80::fetch`: read at PC, advance PC, and on an M1 cycle increment the
low 7 bits of R preserving bit 7. -/
def fetch (m : Machine) (isM1 : Bool) : Nat × Machine :=
  let r := readMem m (m.cpu.pc) isM1
  let m := r.2
  let cpu := { m.cpu with pc := (m.cpu.pc + 1) % 65536 }
  let cpu := if isM1 then { cpu with r := (cpu.r &&& 0x80) ||| ((cpu.r + 1) &&& 0x7F) }
             else cpu
  (r.1, { m with cpu := cpu })

/-- `Z80::fetch16`. -/
def fetch16 (m : Machine) : Nat × Machine :=
  let lo := fetch m false
  let hi := fetch lo.2 false
  ((hi.1 <<< 8) ||| lo.1, hi.2)

/-- `Z80::pop`. -/
def z80Pop (m : Machine) : Nat × Machine :=
  let lo := readMem m (m.cpu.sp) false
  let m1 := { lo.2 with cpu := { lo.2.cpu with sp := (lo.2.cpu.sp + 1) % 65536 } }
  let hi := readMem m1 (m1.cpu.sp) false
  let m2 := { hi.2 with cpu := { hi.2.cpu with sp := (hi.2.cpu.sp + 1) % 65536 } }
  ((hi.1 <<< 8) ||| lo.1, m2)

/-- `Z80::op_di`. -/
def opDi (m : Machine) : Machine :=
  { m with cpu := { m.cpu with iff1 := false, iff2 := false } }

/-- `Z80::op_ei`. -/
def opEi (m : Machine) : Machine :=
  { m with cpu := { m.cpu with iff1 := true, iff2 := true } }

/-- Update F on the machine. -/
def setFlagM (m : Machine) (flag : Nat) (v : Bool) : Machine :=
  { m with cpu := { m.cpu with f := setFlag m.cpu.f flag v } }

/-- `ed_table[0xB0]` (LDIR): copy one byte, bump the pointers, decrement BC,
set the block-move flags, and on BC ≠ 0 rewind PC by two so the next step
re-enters the same opcode. -/
def edLdir (m : Machine) : Machine :=
  let rd := readMem m (m.cpu.hl) false
  let val := rd.1
  let m := writeMem rd.2 (rd.2.cpu.de) val
  let m := { m with cpu := { m.cpu with hl := (m.cpu.hl + 1) % 65536,
                                        de := (m.cpu.de + 1) % 65536,
                                        bc := (m.cpu.bc + 65535) % 65536 } }
  let m := setFlagM m FLAG_H false
  let m := setFlagM m FLAG_N false
  let m := setFlagM m FLAG_P false
  let n := (m.cpu.a + val) % 256
  let m := setFlagM m FLAG_F5 (n &&& 0x02 != 0)
  let m := setFlagM m FLAG_F3 (n &&& 0x08 != 0)
  if m.cpu.bc ≠ 0 then
    addT 17 { m with cpu := { m.cpu with pc := (m.cpu.pc + 65534) % 65536 } }
  else
    addT 12 m

/-- `ed_table[0x45]` (RETN): pop PC and copy IFF2 into IFF1. -/
def edRetn (m : Machine) : Machine :=
  let p := z80Pop m
  let m := { p.2 with cpu := { p.2.cpu with pc := p.1, iff1 := p.2.cpu.iff2 } }
  addT 10 m

/-- `ed_table` dispatch for the embedded entries; every other entry is the
bank default, `add_ticks(4)`. `ed_table[0x4D]` (RETI) has the same body as
RETN in the source. -/
def edTable (op : Nat) (m : Machine) : Machine :=
  if op = 0x45 then edRetn m
  else if op = 0x4D then edRetn m
  else if op = 0xB0 then edLdir m
  else addT 4 m

/-- `dd_table` dispatch: `dd_table[0x21]` is LD IX,nn; every other entry is
the bank's default unknown handler, `add_ticks(4)`. -/
def ddTable (op : Nat) (m : Machine) : Machine :=
  if op = 0x21 then
    let r := fetch16 m
    addT 10 { r.2 with cpu := { r.2.cpu with ix := r.1 } }
  else addT 4 m

/-- `fd_table` dispatch: only the default unknown handler (`add_ticks(4)`)
is exercised by the claims. -/
def fdTable (_op : Nat) (m : Machine) : Machine := addT 4 m

/-- `cb_table` dispatch: only the bank default (`add_ticks(4)`) is
exercised by the claims. -/
def cbTable (_op : Nat) (m : Machine) : Machine := addT 4 m

/-- `main_table` dispatch for the embedded entries (NOP, HALT, DI, EI and
the four prefix latches); every other entry is the default unknown-opcode
handler, which charges 4 T-states. -/
def mainTable (op : Nat) (m : Machine) : Machine :=
  if op = 0x00 then addT 4 m
  else if op = 0x76 then addT 4 { m with cpu := { m.cpu with halted := true } }
  else if op = 0xF3 then addT 4 (opDi m)
  else if op = 0xFB then addT 4 (opEi m)
  else if op = 0xCB then addT 4 { m with cpu := { m.cpu with prefixByte := 0xCB } }
  else if op = 0xED then addT 4 { m with cpu := { m.cpu with prefixByte := 0xED } }
  else if op = 0xDD then addT 4 { m with cpu := { m.cpu with prefixByte := 0xDD } }
  else if op = 0xFD then addT 4 { m with cpu := { m.cpu with prefixByte := 0xFD } }
  else addT 4 m

/-- `Z80::step`: reset the tick counter, resolve a pending prefix byte (one
table dispatch, then clear the latch), otherwise re-fetch while halted
(without advancing PC) or execute one main-bank opcode. Returns the
T-states consumed and the new machine. -/
def z80Step (m : Machine) : Nat × Machine :=
  let m := { m with cpu := { m.cpu with tStates := 0, isM1Cycle := true } }
  if m.cpu.prefixByte ≠ 0x00 then
    let f := fetch m true
    let m1 :=
      if m.cpu.prefixByte = 0xCB then cbTable f.1 f.2
      else if m.cpu.prefixByte = 0xED then edTable f.1 f.2
      else if m.cpu.prefixByte = 0xDD then ddTable f.1 f.2
      else if m.cpu.prefixByte = 0xFD then fdTable f.1 f.2
      else f.2
    let m2 := { m1 with cpu := { m1.cpu with prefixByte := 0x00 } }
    (m2.cpu.tStates, m2)
  else if m.cpu.halted then
    let f := fetch m true
    let m1 := addT 4 f.2
    let m2 := { m1 with cpu := { m1.cpu with pc := (m1.cpu.pc + 65535) % 65536 } }
    (m2.cpu.tStates, m2)
  else
    let f := fetch m true
    let m1 := mainTable f.1 f.2
    (m1.cpu.tStates, m1)

end Mal80

namespace Mal80

/-! ## Frame driver (Emulator.cpp) -/

/-- The `Emulator` members the claims touch. -/
structure EmuState where
  cpu : CPUState
  bus : BusState
  totalTicks : Nat

/-- `Emulator::deliver_interrupt`: given the frame tick counter, returns
the new emulator state and frame counter. No-op unless the bus reports an
interrupt pending and IFF1 is set. -/
def deliverInterrupt (e : EmuState) (frameTs : Nat) : EmuState × Nat :=
  if ¬(interruptPending e.bus = true ∧ e.cpu.iff1 = true) then (e, frameTs)
  else
    let bus := clearInterrupt e.bus
    let cpu := { e.cpu with iff2 := e.cpu.iff1 }
    let cpu := { cpu with iff1 := false }
    let cpu := if cpu.halted then { cpu with halted := false, pc := (cpu.pc + 1) % 65536 }
               else cpu
    let sp := (cpu.sp + 65534) % 65536
    let ret := cpu.pc
    let bus := busWrite bus sp (ret &&& 0xFF)
    let bus := busWrite bus ((sp + 1) % 65536) (ret >>> 8)
    let cpu := { cpu with sp := sp, pc := 0x0038 }
    let bus := addTicks 13 bus
    (⟨cpu, bus, e.totalTicks + 13⟩, frameTs + 13)

/-- One `step_frame` loop body without the intercept layer: run the CPU,
account the ticks on the bus and both counters, then check for interrupt
delivery (steps 4-5 of the per-frame loop). -/
def stepFrameOnce (e : EmuState) (frameTs : Nat) : EmuState × Nat :=
  let r := z80Step ⟨e.cpu, e.bus⟩
  let ticks := r.1
  let e := { e with cpu := r.2.cpu, bus := addTicks ticks r.2.bus,
                    totalTicks := e.totalTicks + ticks }
  deliverInterrupt e (frameTs + ticks)

end Mal80

namespace Mal80

/-! ## Bus preservation lemmas -/

/-- Memory-relevant fields untouched by `update_video_timing`. -/
lemma uvt_mem_fields (t : Nat) (s : BusState) :
    (updateVideoTiming t s).rom = s.rom ∧ (updateVideoTiming t s).vram = s.vram ∧
    (updateVideoTiming t s).ram = s.ram ∧ (updateVideoTiming t s).romShadow = s.romShadow ∧
    (updateVideoTiming t s).romShadowActive = s.romShadowActive ∧
    (updateVideoTiming t s).flatMode = s.flatMode ∧
    (updateVideoTiming t s).flatMem = s.flatMem := by
  simp only [updateVideoTiming]
  repeat' split
  all_goals exact ⟨rfl, rfl, rfl, rfl, rfl, rfl, rfl⟩

/-- `peek` only looks at the memory arrays, so it commutes with
`add_ticks`. -/
lemma busPeek_addTicks (t : Nat) (s : BusState) (a : Nat) :
    busPeek (addTicks t s) a = busPeek s a := by
  unfold addTicks busPeek
  obtain ⟨h1, h2, h3, h4, h5, h6, h7⟩ :=
    uvt_mem_fields t { s with globalTStates := s.globalTStates + t }
  rw [h1, h2, h3, h4, h5, h6, h7]

end Mal80

namespace Mal80

lemma busPeek_rom_region (s : BusState) (a : Nat) (hf : s.flatMode = false) (h : a ≤ ROM_END) :
    busPeek s a = if s.romShadowActive a then s.romShadow a else s.rom a := by
  unfold busPeek
  rw [if_neg (by simp [hf]), if_pos h]

lemma busPeek_vram_region (s : BusState) (a : Nat) (hf : s.flatMode = false)
    (h : VRAM_START ≤ a ∧ a ≤ VRAM_END) :
    busPeek s a = s.vram (a - VRAM_START) := by
  unfold busPeek ROM_END VRAM_START VRAM_END KEYBOARD_START KEYBOARD_END at *
  rw [if_neg (by simp [hf]), if_neg (by omega), if_neg (by omega), if_pos h]

lemma busPeek_ram_region (s : BusState) (a : Nat) (hf : s.flatMode = false)
    (h : RAM_START ≤ a) :
    busPeek s a = s.ram (a - RAM_START) := by
  unfold busPeek ROM_END VRAM_START VRAM_END RAM_START KEYBOARD_START KEYBOARD_END at *
  rw [if_neg (by simp [hf]), if_neg (by omega), if_neg (by omega), if_neg (by omega), if_pos h]

lemma busWrite_rom_region (s : BusState) (addr v : Nat) (hf : s.flatMode = false)
    (h : addr ≤ ROM_END) :
    busWrite s addr v = { s with romShadow := Function.update s.romShadow addr v,
                                 romShadowActive := Function.update s.romShadowActive addr true } := by
  unfold busWrite
  rw [if_neg (by simp [hf]), if_pos h]

lemma busWrite_vram_region (s : BusState) (addr v : Nat) (hf : s.flatMode = false)
    (h : VRAM_START ≤ addr ∧ addr ≤ VRAM_END) :
    busWrite s addr v = { s with vram := Function.update s.vram (addr - VRAM_START) v } := by
  unfold busWrite ROM_END VRAM_START VRAM_END at *
  rw [if_neg (by simp [hf]), if_neg (by omega), if_neg (by omega), if_pos h]

lemma busWrite_ram_region (s : BusState) (addr v : Nat) (hf : s.flatMode = false)
    (h : RAM_START ≤ addr ∧ addr ≤ RAM_END) :
    busWrite s addr v = { s with ram := Function.update s.ram (addr - RAM_START) v } := by
  unfold busWrite ROM_END VRAM_START VRAM_END RAM_START RAM_END at *
  rw [if_neg (by simp [hf]), if_neg (by omega), if_neg (by omega), if_neg (by omega), if_pos h]

/-- Write-then-peek at an address in the ROM, VRAM or RAM ranges returns the
written byte. -/
lemma busWrite_peek_self (s : BusState) (addr v : Nat) (hf : s.flatMode = false)
    (hr : addr ≤ ROM_END ∨ (VRAM_START ≤ addr ∧ addr ≤ RAM_END)) :
    busPeek (busWrite s addr v) addr = v := by
  rcases hr with hr | hr
  · rw [busWrite_rom_region s addr v hf hr]
    rw [busPeek_rom_region _ _ (by dsimp only; exact hf) hr]
    dsimp only
    rw [Function.update_same, Function.update_same, if_pos rfl]
  · by_cases hv : addr ≤ VRAM_END
    · rw [busWrite_vram_region s addr v hf ⟨hr.1, hv⟩]
      rw [busPeek_vram_region _ _ (by dsimp only; exact hf) ⟨hr.1, hv⟩]
      dsimp only
      rw [Function.update_same]
    · have hram : RAM_START ≤ addr ∧ addr ≤ RAM_END := by
        unfold VRAM_START VRAM_END RAM_START RAM_END at *
        omega
      rw [busWrite_ram_region s addr v hf hram]
      rw [busPeek_ram_region _ _ (by dsimp only; exact hf) hram.1]
      dsimp only
      rw [Function.update_same]

end Mal80

namespace Mal80

lemma busPeek_congr_at (s1 s2 : BusState) (a : Nat)
    (hfm : s1.flatMode = s2.flatMode)
    (hfl : s2.flatMode = true → s1.flatMem a = s2.flatMem a)
    (hsh : a ≤ ROM_END → s1.romShadow a = s2.romShadow a)
    (hsa : a ≤ ROM_END → s1.romShadowActive a = s2.romShadowActive a)
    (hrom : a ≤ ROM_END → s1.rom a = s2.rom a)
    (hv : VRAM_START ≤ a ∧ a ≤ VRAM_END → s1.vram (a - VRAM_START) = s2.vram (a - VRAM_START))
    (hram : RAM_START ≤ a → s1.ram (a - RAM_START) = s2.ram (a - RAM_START)) :
    busPeek s1 a = busPeek s2 a := by
  unfold busPeek
  rw [hfm]
  by_cases h0 : s2.flatMode = true
  · rw [if_pos h0, if_pos h0, hfl h0]
  · rw [if_neg h0, if_neg h0]
    by_cases hA : a ≤ ROM_END
    · rw [if_pos hA, if_pos hA, hsa hA, hsh hA, hrom hA]
    · rw [if_neg hA, if_neg hA]
      by_cases hK : KEYBOARD_START ≤ a ∧ a ≤ KEYBOARD_END
      · rw [if_pos hK, if_pos hK]
      · rw [if_neg hK, if_neg hK]
        by_cases hV : VRAM_START ≤ a ∧ a ≤ VRAM_END
        · rw [if_pos hV, if_pos hV, hv hV]
        · rw [if_neg hV, if_neg hV]
          by_cases hR : RAM_START ≤ a
          · rw [if_pos hR, if_pos hR, hram hR]
          · rw [if_neg hR, if_neg hR]

lemma busWrite_flatMode (s : BusState) (addr v : Nat) :
    (busWrite s addr v).flatMode = s.flatMode := by
  unfold busWrite
  repeat' split
  all_goals rfl

lemma busWrite_rom (s : BusState) (addr v : Nat) :
    (busWrite s addr v).rom = s.rom := by
  unfold busWrite
  repeat' split
  all_goals rfl

lemma busWrite_shadowA_ne (s : BusState) (addr v a : Nat) (h : addr ≠ a) :
    (busWrite s addr v).romShadowActive a = s.romShadowActive a := by
  unfold busWrite
  repeat' split
  all_goals first
    | rfl
    | exact Function.update_noteq (Ne.symm h) _ _

lemma busWrite_shadow_ne (s : BusState) (addr v a : Nat) (h : addr ≠ a) :
    (busWrite s addr v).romShadow a = s.romShadow a := by
  unfold busWrite
  repeat' split
  all_goals first
    | rfl
    | exact Function.update_noteq (Ne.symm h) _ _

lemma busWrite_flatMem_ne (s : BusState) (addr v a : Nat) (h : addr ≠ a) :
    (busWrite s addr v).flatMem a = s.flatMem a := by
  unfold busWrite
  repeat' split
  all_goals first
    | rfl
    | exact Function.update_noteq (Ne.symm h) _ _

lemma busWrite_vram_at_ne (s : BusState) (addr v a : Nat) (h : addr ≠ a)
    (ha : VRAM_START ≤ a ∧ a ≤ VRAM_END) :
    (busWrite s addr v).vram (a - VRAM_START) = s.vram (a - VRAM_START) := by
  unfold busWrite
  split
  · rfl
  · split
    · rfl
    · split
      · rfl
      · split
        · dsimp only
          exact Function.update_noteq
            (by simp only [VRAM_START, VRAM_END] at *; omega) _ _
        · split
          · rfl
          · rfl

lemma busWrite_ram_at_ne (s : BusState) (addr v a : Nat) (h : addr ≠ a)
    (ha : RAM_START ≤ a) :
    (busWrite s addr v).ram (a - RAM_START) = s.ram (a - RAM_START) := by
  unfold busWrite
  split
  · rfl
  · split
    · rfl
    · split
      · rfl
      · split
        · rfl
        · split
          · dsimp only
            exact Function.update_noteq
              (by simp only [RAM_START, RAM_END] at *; omega) _ _
          · rfl

/-- A write at a different address never changes what `peek` reads. -/
lemma busWrite_peek_ne (s : BusState) (addr v a : Nat) (hne : addr ≠ a) :
    busPeek (busWrite s addr v) a = busPeek s a := by
  refine busPeek_congr_at _ _ a (busWrite_flatMode s addr v) ?_ ?_ ?_ ?_ ?_ ?_
  · intro _; exact busWrite_flatMem_ne s addr v a hne
  · intro _; exact busWrite_shadow_ne s addr v a hne
  · intro _; exact busWrite_shadowA_ne s addr v a hne
  · intro _; rw [busWrite_rom]
  · intro hV; exact busWrite_vram_at_ne s addr v a hne hV
  · intro hR; exact busWrite_ram_at_ne s addr v a hne hR

end Mal80

namespace Mal80

lemma uvt_globalT (t : Nat) (s : BusState) :
    (updateVideoTiming t s).globalTStates = s.globalTStates := by
  simp only [updateVideoTiming]
  repeat' split
  all_goals rfl

lemma addTicks_globalT (t : Nat) (s : BusState) :
    (addTicks t s).globalTStates = s.globalTStates + t := by
  unfold addTicks
  rw [uvt_globalT]

lemma addTicks_intPending_of (t : Nat) (s : BusState)
    (hw : ¬(s.iffEnabled = true ∧ 114 ≤ s.tStatesInScanline + t ∧ 261 ≤ s.currentScanline)) :
    (addTicks t s).intPending = s.intPending := by
  unfold addTicks updateVideoTiming VIDEO_T_STATES_PER_SCANLINE VIDEO_TOTAL_SCANLINES
  dsimp only
  split
  · split
    · split
      · rename_i h1 h2 h3
        exact absurd ⟨h3, by omega, by omega⟩ hw
      · rfl
    · rfl
  · rfl

lemma busWrite_timing (s : BusState) (addr v : Nat) :
    (busWrite s addr v).intPending = s.intPending ∧
    (busWrite s addr v).intForLatch = s.intForLatch ∧
    (busWrite s addr v).iffEnabled = s.iffEnabled ∧
    (busWrite s addr v).currentScanline = s.currentScanline ∧
    (busWrite s addr v).tStatesInScanline = s.tStatesInScanline ∧
    (busWrite s addr v).globalTStates = s.globalTStates ∧
    (busWrite s addr v).flatMode = s.flatMode := by
  unfold busWrite
  repeat' split
  all_goals exact ⟨rfl, rfl, rfl, rfl, rfl, rfl, rfl⟩

/-- Addresses whose bus writes land in backing storage that `peek` reads
back (ROM shadow, VRAM, or RAM). -/
def pushAddrOk (a : Nat) : Prop := a ≤ ROM_END ∨ (VRAM_START ≤ a ∧ a ≤ RAM_END)

/-- Explicit form of `deliver_interrupt` when the guard passes. -/
lemma deliverInterrupt_eq (e : EmuState) (frameTs : Nat)
    (hp : interruptPending e.bus = true) (hi : e.cpu.iff1 = true) :
    deliverInterrupt e frameTs =
      (⟨{ e.cpu with iff2 := e.cpu.iff1, iff1 := false, halted := false,
                     sp := (e.cpu.sp + 65534) % 65536, pc := 0x0038 },
        addTicks 13
          (busWrite
            (busWrite (clearInterrupt e.bus) ((e.cpu.sp + 65534) % 65536)
              ((if e.cpu.halted then (e.cpu.pc + 1) % 65536 else e.cpu.pc) &&& 0xFF))
            (((e.cpu.sp + 65534) % 65536 + 1) % 65536)
            ((if e.cpu.halted then (e.cpu.pc + 1) % 65536 else e.cpu.pc) >>> 8)),
        e.totalTicks + 13⟩,
       frameTs + 13) := by
  unfold deliverInterrupt
  rw [if_neg (not_not_intro ⟨hp, hi⟩)]
  cases hb : e.cpu.halted
  · simp only [hb, Bool.false_eq_true, if_false]
  · simp only [hb, if_true]


/-- C1: interrupt delivery by the frame driver — given a pending bus
interrupt and IFF1 set, `Emulator::deliver_interrupt` clears the bus timer
delivery flag, copies IFF1 into IFF2 then clears IFF1, clears HALT (a
halted CPU resumes with PC advanced by 1), pushes the pre-acceptance PC with
the low byte at SP-2 and the high byte at SP-1, sets SP to SP-2 and PC to
0x0038, and charges exactly 13 ticks to the bus, frame and total counters.
The push-readback clauses assume the two stack bytes land in backed storage
(ROM-shadow/VRAM/RAM) and the 13 ticks do not themselves complete scanline
261 (otherwise the timer immediately re-raises the latch). -/
theorem C1_deliver_interrupt_contract (e : EmuState) (frameTs : Nat)
    (hp : interruptPending e.bus = true)
    (hi : e.cpu.iff1 = true)
    (hflat : e.bus.flatMode = false)
    (hr1 : pushAddrOk ((e.cpu.sp + 65534) % 65536))
    (hr2 : pushAddrOk (((e.cpu.sp + 65534) % 65536 + 1) % 65536))
    (hw : ¬(e.bus.iffEnabled = true ∧ 114 ≤ e.bus.tStatesInScanline + 13 ∧ 261 ≤ e.bus.currentScanline)) :
    (deliverInterrupt e frameTs).1.bus.intPending = false ∧
    (deliverInterrupt e frameTs).1.cpu.iff2 = e.cpu.iff1 ∧
    (deliverInterrupt e frameTs).1.cpu.iff1 = false ∧
    (deliverInterrupt e frameTs).1.cpu.halted = false ∧
    (deliverInterrupt e frameTs).1.cpu.sp = (e.cpu.sp + 65534) % 65536 ∧
    (deliverInterrupt e frameTs).1.cpu.pc = 0x0038 ∧
    busPeek (deliverInterrupt e frameTs).1.bus ((e.cpu.sp + 65534) % 65536)
      = (if e.cpu.halted then (e.cpu.pc + 1) % 65536 else e.cpu.pc) &&& 0xFF ∧
    busPeek (deliverInterrupt e frameTs).1.bus (((e.cpu.sp + 65534) % 65536 + 1) % 65536)
      = (if e.cpu.halted then (e.cpu.pc + 1) % 65536 else e.cpu.pc) >>> 8 ∧
    (deliverInterrupt e frameTs).1.bus.globalTStates = e.bus.globalTStates + 13 ∧
    (deliverInterrupt e frameTs).1.totalTicks = e.totalTicks + 13 ∧
    (deliverInterrupt e frameTs).2 = frameTs + 13 := by
  have hne : ((e.cpu.sp + 65534) % 65536 + 1) % 65536 ≠ (e.cpu.sp + 65534) % 65536 := by
    omega
  rw [deliverInterrupt_eq e frameTs hp hi]
  have hfl1 : (clearInterrupt e.bus).flatMode = false := hflat
  have hfl2 : (busWrite (clearInterrupt e.bus) ((e.cpu.sp + 65534) % 65536)
      ((if e.cpu.halted then (e.cpu.pc + 1) % 65536 else e.cpu.pc) &&& 0xFF)).flatMode = false := by
    rw [(busWrite_timing _ _ _).2.2.2.2.2.2]
    exact hfl1
  refine ⟨?_, rfl, rfl, rfl, rfl, rfl, ?_, ?_, ?_, rfl, rfl⟩
  · rw [addTicks_intPending_of]
    · rw [(busWrite_timing _ _ _).1, (busWrite_timing _ _ _).1]
      rfl
    · intro hcon
      apply hw
      obtain ⟨c1, c2, c3⟩ := hcon
      rw [(busWrite_timing _ _ _).2.2.1, (busWrite_timing _ _ _).2.2.1] at c1
      rw [(busWrite_timing _ _ _).2.2.2.2.1, (busWrite_timing _ _ _).2.2.2.2.1] at c2
      rw [(busWrite_timing _ _ _).2.2.2.1, (busWrite_timing _ _ _).2.2.2.1] at c3
      exact ⟨c1, c2, c3⟩
  · rw [busPeek_addTicks, busWrite_peek_ne _ _ _ _ hne, busWrite_peek_self _ _ _ hfl1 hr1]
  · rw [busPeek_addTicks, busWrite_peek_self _ _ _ hfl2 hr2]
  · rw [addTicks_globalT, (busWrite_timing _ _ _).2.2.2.2.2.1, (busWrite_timing _ _ _).2.2.2.2.2.1]
    rfl

/-- Witness for C1: a concrete pending-interrupt state is delivered as the
contract describes. -/
theorem C1_deliver_interrupt_contract_witness :
    (interruptPending { busInit with intPending := true } = true ∧
     ({ cpuReset cpuZero with iff1 := true } : CPUState).iff1 = true ∧
     ({ busInit with intPending := true } : BusState).flatMode = false ∧
     pushAddrOk ((({ cpuReset cpuZero with iff1 := true } : CPUState).sp + 65534) % 65536) ∧
     pushAddrOk (((({ cpuReset cpuZero with iff1 := true } : CPUState).sp + 65534) % 65536 + 1) % 65536)) ∧
    (deliverInterrupt ⟨{ cpuReset cpuZero with iff1 := true }, { busInit with intPending := true }, 0⟩ 0).1.cpu.pc = 0x0038 := by
  have h := C1_deliver_interrupt_contract
    ⟨{ cpuReset cpuZero with iff1 := true }, { busInit with intPending := true }, 0⟩ 0
    (by rfl) (by rfl) (by rfl)
    (by unfold pushAddrOk ROM_END VRAM_START RAM_END; decide)
    (by unfold pushAddrOk ROM_END VRAM_START RAM_END; decide)
    (by decide)
  refine ⟨⟨by rfl, by rfl, by rfl, ?_, ?_⟩, h.2.2.2.2.2.1⟩
  · unfold pushAddrOk ROM_END VRAM_START RAM_END
    decide
  · unfold pushAddrOk ROM_END VRAM_START RAM_END
    decide

end Mal80

namespace Mal80

/-- C2 counterexample: after 29,498 one-tick updates from cold boot the
scanline machine is still on scanline 258 and neither interrupt latch has
been raised, so the frame did not complete in 29,498 ticks and a CPU
running that long is never diverted. -/
theorem C2_frame_29498_counterexample :
    (busTickN 29498).currentScanline = 258 ∧
    (busTickN 29498).intPending = false ∧
    (busTickN 29498).intForLatch = false ∧
    interruptPending (busTickN 29498) = false := by
  obtain ⟨h1, h2, h3, h4, h5, h6, h7⟩ := busTickN_closed 29498
  refine ⟨?_, ?_, ?_, ?_⟩
  · rw [h2]
  · rw [h3]
    decide
  · rw [h4]
    decide
  · unfold interruptPending
    rw [h3, h7]
    decide

/-- C2 amended: the video-timing machine completes a full frame in exactly
262 × 114 = 29,868 ticks. Along the one-tick iteration from cold boot the
counters follow the division closed form, the interrupt flags first rise at
tick 29,868 (so the wrap from 261 to 0 has then happened exactly once), and
a delivery check on a CPU with IFF1 = 1 at that point diverts it to
0x0038. -/
theorem C2_frame_amended :
    (∀ n : Nat,
      (busTickN n).tStatesInScanline = n % 114 ∧
      (busTickN n).currentScanline = (n / 114) % 262 ∧
      (busTickN n).intPending = decide (29868 ≤ n) ∧
      (busTickN n).intForLatch = decide (29868 ≤ n) ∧
      interruptPending (busTickN n) = decide (29868 ≤ n)) ∧
    (∀ (cpu : CPUState) (bus : BusState) (tt frameTs : Nat),
      cpu.iff1 = true → interruptPending bus = true →
      (deliverInterrupt ⟨cpu, bus, tt⟩ frameTs).1.cpu.pc = 0x0038 ∧
      (deliverInterrupt ⟨cpu, bus, tt⟩ frameTs).1.cpu.sp = (cpu.sp + 65534) % 65536) := by
  have key : ∀ n : Nat, interruptPending (busTickN n) = decide (29868 ≤ n) := by
    intro n
    obtain ⟨_, _, h3, _, _, _, h7⟩ := busTickN_closed n
    unfold interruptPending
    rw [h3, h7]
    exact Bool.or_false _
  constructor
  · intro n
    obtain ⟨h1, h2, h3, h4, _, _, _⟩ := busTickN_closed n
    exact ⟨h1, h2, h3, h4, key n⟩
  · intro cpu bus tt frameTs hiff hp
    rw [deliverInterrupt_eq ⟨cpu, bus, tt⟩ frameTs hp hiff]
    exact ⟨rfl, rfl⟩

/-- Witness for C2's amended theorem at a concrete CPU with IFF1 set and a
concrete pending bus. -/
theorem C2_frame_amended_witness :
    ({ cpuReset cpuZero with iff1 := true } : CPUState).iff1 = true ∧
    interruptPending { busInit with intPending := true } = true ∧
    (deliverInterrupt ⟨{ cpuReset cpuZero with iff1 := true }, { busInit with intPending := true }, 0⟩ 0).1.cpu.pc = 0x0038 :=
  ⟨rfl, rfl,
    (C2_frame_amended.2 { cpuReset cpuZero with iff1 := true } { busInit with intPending := true } 0 0 rfl rfl).1⟩

end Mal80

namespace Mal80

/-- `Bus::read` of a ROM-range address never contends and returns the
shadow byte when the per-byte flag is set, else the ROM byte. -/
lemma busRead_rom_val (s : BusState) (addr : Nat) (m1 : Bool)
    (hf : s.flatMode = false) (ha : addr ≤ ROM_END) :
    (busRead s addr m1).1 = if s.romShadowActive addr then s.romShadow addr else s.rom addr := by
  have hws : shouldInsertWaitState s addr m1 = false := by
    unfold shouldInsertWaitState
    unfold ROM_END at ha
    unfold VRAM_START VRAM_END
    cases m1
    · rfl
    · rw [if_neg (by simp), if_pos (by omega)]
  unfold busRead
  rw [if_neg (by simp [hf]), hws]
  simp only [Bool.false_eq_true, if_false]
  rw [if_pos ha]

/-- Applying a list of bus writes in order. -/
def applyWrites (s : BusState) (ws : List (Nat × Nat)) : BusState :=
  ws.foldl (fun t p => busWrite t p.1 p.2) s

lemma applyWrites_preserve (ws : List (Nat × Nat)) (s : BusState) (addr : Nat)
    (h : ∀ p ∈ ws, p.1 ≠ addr) :
    (applyWrites s ws).romShadowActive addr = s.romShadowActive addr ∧
    (applyWrites s ws).romShadow addr = s.romShadow addr ∧
    (applyWrites s ws).rom addr = s.rom addr ∧
    (applyWrites s ws).flatMode = s.flatMode := by
  induction ws generalizing s with
  | nil => exact ⟨rfl, rfl, rfl, rfl⟩
  | cons p rest ih =>
      have hp : p.1 ≠ addr := h p (List.mem_cons_self p rest)
      have hrest : ∀ q ∈ rest, q.1 ≠ addr := fun q hq => h q (List.mem_cons_of_mem p hq)
      obtain ⟨i1, i2, i3, i4⟩ := ih (busWrite s p.1 p.2) hrest
      refine ⟨?_, ?_, ?_, ?_⟩
      · rw [show applyWrites s (p :: rest) = applyWrites (busWrite s p.1 p.2) rest from rfl,
            i1, busWrite_shadowA_ne s p.1 p.2 addr hp]
      · rw [show applyWrites s (p :: rest) = applyWrites (busWrite s p.1 p.2) rest from rfl,
            i2, busWrite_shadow_ne s p.1 p.2 addr hp]
      · rw [show applyWrites s (p :: rest) = applyWrites (busWrite s p.1 p.2) rest from rfl,
            i3, busWrite_rom]
      · rw [show applyWrites s (p :: rest) = applyWrites (busWrite s p.1 p.2) rest from rfl,
            i4, busWrite_flatMode]

/-- C6: ROM-range round trip. Writing any byte into 0x0000-0x2FFF makes the
shadow byte active and `read` returns it; for an address never written
since its shadow flag was clear, `read` and `peek` return the original ROM
byte regardless of other writes; and `reset()` clears every shadow-active
flag. -/
theorem C6_rom_shadow_roundtrip (s : BusState) (addr b : Nat) (m1 : Bool)
    (hf : s.flatMode = false) (ha : addr ≤ ROM_END) :
    (busRead (busWrite s addr b) addr m1).1 = b ∧
    (busWrite s addr b).romShadowActive addr = true ∧
    (∀ ws : List (Nat × Nat), (∀ p ∈ ws, p.1 ≠ addr) → s.romShadowActive addr = false →
      (busRead (applyWrites s ws) addr m1).1 = s.rom addr ∧
      busPeek (applyWrites s ws) addr = s.rom addr) ∧
    (∀ i : Nat, (busReset s).romShadowActive i = false) := by
  refine ⟨?_, ?_, ?_, fun _ => rfl⟩
  · rw [busWrite_rom_region s addr b hf ha,
        busRead_rom_val _ _ _ (by dsimp only; exact hf) ha]
    dsimp only
    rw [Function.update_same, if_pos rfl, Function.update_same]
  · rw [busWrite_rom_region s addr b hf ha]
    dsimp only
    exact Function.update_same addr true s.romShadowActive
  · intro ws hws hact
    obtain ⟨i1, i2, i3, i4⟩ := applyWrites_preserve ws s addr hws
    constructor
    · rw [busRead_rom_val _ _ _ (by rw [i4]; exact hf) ha, i1, hact, i3]
      simp
    · rw [busPeek_rom_region _ _ (by rw [i4]; exact hf) ha, i1, hact, i3]
      simp

/-- Witness for C6 at a concrete bus, address and byte. -/
theorem C6_rom_shadow_roundtrip_witness :
    (busInit.flatMode = false ∧ (0x38 : Nat) ≤ ROM_END) ∧
    (busRead (busWrite busInit 0x38 0xC3) 0x38 false).1 = 0xC3 ∧
    busPeek (applyWrites busInit [(0x4000, 0xAA)]) 0x38 = busInit.rom 0x38 := by
  have h := C6_rom_shadow_roundtrip busInit 0x38 0xC3 false rfl (by decide)
  refine ⟨⟨rfl, by decide⟩, h.1, ?_⟩
  exact (h.2.2.1 [(0x4000, 0xAA)] (by decide) rfl).2

end Mal80

namespace Mal80

lemma cmdRestore_intrq (s : FDCState) : (cmdRestore s).intrq = true := by
  unfold cmdRestore
  cases hd : activeDrive s <;> simp only [hd]

lemma cmdSeek_intrq (s : FDCState) : (cmdSeek s).intrq = true := by
  unfold cmdSeek
  cases hd : activeDrive s <;> simp only [hd]

lemma cmdStep_intrq (s : FDCState) (dir : Int) (u : Bool) : (cmdStep s dir u).intrq = true := by
  unfold cmdStep
  cases hd : activeDrive s <;> simp only [hd]

/-- C7 counterexample: after Restore on an empty controller INTRQ is set;
writing Force Interrupt without bit 3 (0xD0) to the command register then
clears INTRQ, although no status-register read took place. -/
theorem C7_intrq_counterexample :
    (fdcWrite fdcInit 0x37EC 0x00).intrq = true ∧
    (fdcWrite (fdcWrite fdcInit 0x37EC 0x00) 0x37EC 0xD0).intrq = false := by
  exact ⟨rfl, rfl⟩

/-- C7 amended: INTRQ is raised by every immediate command completion
(type I commands, not-ready and record-not-found errors, and the end of a
Read/Write Sector data transfer) and by Force Interrupt with bit 3; it is
cleared by a read of the status register at 0x37EC and also by the dispatch
of any new command (execute_command clears INTRQ before dispatching, so
Force Interrupt without bit 3 leaves it clear); no read or write of the
track, sector, data or drive-select registers ever clears it. -/
theorem C7_intrq_amended :
    (∀ s : FDCState, (fdcRead s 0x37EC).2.intrq = false) ∧
    (∀ s : FDCState, (fdcRead s 0x37ED).2.intrq = s.intrq ∧ (fdcRead s 0x37EE).2.intrq = s.intrq) ∧
    (∀ s : FDCState, s.intrq = true → (fdcRead s 0x37EF).2.intrq = true) ∧
    (∀ (s : FDCState) (a v : Nat),
        a = 0x37E0 ∨ a = 0x37E1 ∨ a = 0x37E2 ∨ a = 0x37E3 ∨ a = 0x37ED ∨ a = 0x37EE →
        (fdcWrite s a v).intrq = s.intrq) ∧
    (∀ (s : FDCState) (v : Nat), s.intrq = true → (fdcWrite s 0x37EF v).intrq = true) ∧
    (∀ (s : FDCState) (v : Nat), v >>> 4 ≤ 7 → (fdcWrite s 0x37EC v).intrq = true) ∧
    (∀ (s : FDCState) (v : Nat), v >>> 4 = 0xD →
        (fdcWrite s 0x37EC v).intrq = (v &&& 0x08 != 0)) ∧
    (∀ s : FDCState, s.bufLen ≠ 0 → s.bufPos + 1 ≥ s.bufLen → s.bufPos < s.bufLen →
        (fdcRead s 0x37EF).2.intrq = true) ∧
    (∀ (s : FDCState) (v : Nat), s.writePending = true → s.bufLen ≠ 0 →
        s.bufPos + 1 ≥ s.bufLen → s.bufPos < s.bufLen →
        (fdcWrite s 0x37EF v).intrq = true) := by
  refine ⟨fun s => rfl, fun s => ⟨rfl, rfl⟩, ?_, ?_, ?_, ?_, ?_, ?_, ?_⟩
  · intro s h
    unfold fdcRead
    norm_num
    split
    · split
      · rfl
      · exact h
    · exact h
  · intro s a v ha
    unfold fdcWrite
    rcases ha with h | h | h | h | h | h <;> subst h <;> norm_num <;> rfl
  · intro s v h
    unfold fdcWrite
    norm_num
    split
    · split
      · split <;> rfl
      · exact h
    · exact h
  · intro s v hv
    rw [Nat.shiftRight_eq_div_pow] at hv
    unfold fdcWrite
    norm_num
    unfold executeCommand
    rw [Nat.shiftRight_eq_div_pow]
    have h8 : v / 2 ^ 4 = 0 ∨ v / 2 ^ 4 = 1 ∨ v / 2 ^ 4 = 2 ∨ v / 2 ^ 4 = 3 ∨
        v / 2 ^ 4 = 4 ∨ v / 2 ^ 4 = 5 ∨ v / 2 ^ 4 = 6 ∨ v / 2 ^ 4 = 7 := by omega
    rcases h8 with h | h | h | h | h | h | h | h <;> rw [h] <;> norm_num <;>
      first
        | exact cmdRestore_intrq _
        | exact cmdSeek_intrq _
        | exact cmdStep_intrq _ _ _
  · intro s v hv
    rw [Nat.shiftRight_eq_div_pow] at hv
    unfold fdcWrite
    norm_num
    unfold executeCommand
    rw [Nat.shiftRight_eq_div_pow, hv]
    norm_num
    unfold cmdForceInterrupt
    cases hb : ((v &&& 8 : Nat) != 0) <;> simp only [hb] <;> rfl
  · intro s h1 h2 h3
    unfold fdcRead
    norm_num
    rw [if_pos ⟨by omega, h3⟩, if_pos h2]
  · intro s v hw h1 h2 h3
    unfold fdcWrite
    norm_num
    rw [if_pos ⟨hw, by omega, h3⟩, if_pos h2]

/-- Witness for C7's amended theorem: a Seek command write (type 1) on the
initial controller raises INTRQ. -/
theorem C7_intrq_amended_witness :
    ((0x10 : Nat) >>> 4 ≤ 7) ∧ (fdcWrite fdcInit 0x37EC 0x10).intrq = true :=
  ⟨by decide, C7_intrq_amended.2.2.2.2.2.1 fdcInit 0x10 (by decide)⟩

end Mal80

namespace Mal80

/-! ## Software loader (`SoftwareLoader::find_cas_file`)

The directory scan is modelled as a pure function over the list of file
paths inside `software/` (e.g. `"software/ab.cas"`). `std::tolower` on
ASCII, `std::filesystem::path::stem`/`extension` and `std::sort` on
`std::string` (byte-wise lexicographic order, `lexLt`) are modelled
directly; `matches.front()` after sorting is the lexicographic minimum. -/


/-- ASCII `tolower` on one character. -/
def asciiLowerChar (c : Char) : Char :=
  if 'A' ≤ c ∧ c ≤ 'Z' then Char.ofNat (c.toNat + 32) else c

/-- `std::transform(..., ::tolower)` over a string. -/
def asciiLowerStr (s : String) : String := String.mk (s.data.map asciiLowerChar)

/-- Split a character list at `'/'` separators (always nonempty). -/
def splitSlash : List Char → List (List Char)
  | [] => [[]]
  | c :: rest =>
    match splitSlash rest with
    | [] => [[c]]
    | h :: t => if c = '/' then [] :: h :: t else (c :: h) :: t

/-- The final path component (`std::filesystem::path::filename`). -/
def lastComponent (p : String) : String := String.mk ((splitSlash p.data).getLastD [])

/-- Index of the last `'.'` in a character list, if any. -/
def lastDotIdx (ds : List Char) : Option Nat :=
  (List.range ds.length).foldl
    (fun acc i => if ds.getD i ' ' = '.' then some i else acc) none

/-- `std::filesystem::path::extension` (the dot-suffix of the final
component; empty for dot-less names, leading-dot names, "." and ".."). -/
def extOf (p : String) : String :=
  let base := lastComponent p
  if base = "." ∨ base = ".." then ""
  else
    match lastDotIdx base.data with
    | some i => if i = 0 then "" else String.mk (base.data.drop i)
    | none => ""

/-- `std::filesystem::path::stem`: the final component minus `extOf`. -/
def stemOf (p : String) : String :=
  let base := lastComponent p
  if base = "." ∨ base = ".." then base
  else
    match lastDotIdx base.data with
    | some i => if i = 0 then base else String.mk (base.data.take i)
    | none => base

/-- `SoftwareLoader::file_ext`: the extension, lower-cased. -/
def fileExt (p : String) : String := asciiLowerStr (extOf p)

/-- Byte-wise lexicographic `operator<` of `std::string` on code points. -/
def lexLt : List Char → List Char → Bool
  | [], [] => false
  | [], _ :: _ => true
  | _ :: _, [] => false
  | a :: as, b :: bs =>
    if a.toNat < b.toNat then true
    else if b.toNat < a.toNat then false
    else lexLt as bs

/-- `a < b` for paths as `std::string`s. -/
def strLt (a b : String) : Bool := lexLt a.data b.data

/-- The total preorder induced by `strLt` (what a `std::sort` result is
ordered by). -/
def strLe (a b : String) : Bool := !(strLt b a)

/-- The entries of `find_cas_file`'s `matches` vector: files with a
`.cas`/`.bas` extension whose lower-cased stem has the lower-cased search
name as a prefix (an empty search name matches everything). -/
def casMatches (filename : String) (entries : List String) : List String :=
  let lower := asciiLowerStr filename
  entries.filter (fun p =>
    let ext := fileExt p
    (ext == ".cas" || ext == ".bas") &&
    (lower.data.isEmpty || List.isPrefixOf lower.data (asciiLowerStr (stemOf p)).data))

/-- `SoftwareLoader::find_cas_file`: collect the matches, sort, pick the
front; empty string when nothing matches. -/
def findCasFile (filename : String) (entries : List String) : String :=
  let ms := casMatches filename entries
  if ms.isEmpty then ""
  else (List.insertionSort (fun a b => strLe a b = true) ms).headD ""

-- order lemmas for lexLt / strLe

lemma lexLt_asymm : ∀ x y, lexLt x y = true → lexLt y x = false := by
  intro x
  induction x with
  | nil => intro y _; cases y <;> rfl
  | cons a as ih =>
    intro y h
    cases y with
    | nil => exact absurd h (by simp [lexLt])
    | cons b bs =>
      simp only [lexLt] at h ⊢
      by_cases hab : a.toNat < b.toNat
      · rw [if_neg (by omega), if_pos hab]
      · rw [if_neg hab] at h
        by_cases hba : b.toNat < a.toNat
        · rw [if_pos hba] at h; exact absurd h (by simp)
        · rw [if_neg hba] at h
          rw [if_neg hba, if_neg hab]
          exact ih bs h

lemma lexLt_irrefl : ∀ x, lexLt x x = false := by
  intro x
  induction x with
  | nil => rfl
  | cons a as ih =>
    simp only [lexLt, Nat.lt_irrefl, if_false]
    exact ih

lemma lexLt_le_trans : ∀ x y z, lexLt y x = false → lexLt z y = false →
    lexLt z x = false := by
  intro x
  induction x with
  | nil =>
    intro y z h1 h2
    cases z with
    | nil => rfl
    | cons c cs => rfl
  | cons a as ih =>
    intro y z h1 h2
    cases y with
    | nil => exact absurd h1 (by simp [lexLt])
    | cons b bs =>
      cases z with
      | nil => exact absurd h2 (by simp [lexLt])
      | cons c cs =>
        simp only [lexLt] at h1 h2 ⊢
        by_cases hba : b.toNat < a.toNat
        · rw [if_pos hba] at h1; exact absurd h1 (by simp)
        · rw [if_neg hba] at h1
          by_cases hcb : c.toNat < b.toNat
          · rw [if_pos hcb] at h2; exact absurd h2 (by simp)
          · rw [if_neg hcb] at h2
            rw [if_neg (by omega)]
            by_cases hac : a.toNat < c.toNat
            · rw [if_pos hac]
            · rw [if_neg hac]
              have hab : ¬ a.toNat < b.toNat := by omega
              have hbc : ¬ b.toNat < c.toNat := by omega
              rw [if_neg hab] at h1
              rw [if_neg hbc] at h2
              exact ih bs cs h1 h2

lemma strLe_total : ∀ a b : String, strLe a b = true ∨ strLe b a = true := by
  intro a b
  simp only [strLe, Bool.not_eq_true']
  cases h : strLt b a with
  | false => exact Or.inl rfl
  | true => exact Or.inr (lexLt_asymm _ _ h)

lemma strLe_trans : ∀ a b c : String, strLe a b = true → strLe b c = true →
    strLe a c = true := by
  intro a b c h1 h2
  simp only [strLe, Bool.not_eq_true'] at h1 h2 ⊢
  exact lexLt_le_trans a.data b.data c.data h1 h2

lemma lexLt_append : ∀ (p s t : List Char), lexLt (p ++ s) (p ++ t) = lexLt s t := by
  intro p s t
  induction p with
  | nil => rfl
  | cons a p ih =>
    show lexLt (a :: (p ++ s)) (a :: (p ++ t)) = lexLt s t
    simp only [lexLt, Nat.lt_irrefl, if_false]
    exact ih

-- head-of-sorted-matches facts, shared by the amended theorem and its witness

lemma findCasFile_empty {n : String} {e : List String}
    (h : casMatches n e = []) : findCasFile n e = "" := by
  simp [findCasFile, h]

lemma findCasFile_headfacts {n : String} {e : List String}
    (h : casMatches n e ≠ []) :
    findCasFile n e ∈ casMatches n e ∧
    ∀ m ∈ casMatches n e, strLe (findCasFile n e) m = true := by
  haveI htot : IsTotal String (fun a b => strLe a b = true) := ⟨strLe_total⟩
  haveI htrans : IsTrans String (fun a b => strLe a b = true) := ⟨strLe_trans⟩
  have hperm := List.perm_insertionSort (fun a b : String => strLe a b = true) (casMatches n e)
  have hsorted := List.sorted_insertionSort (fun a b : String => strLe a b = true) (casMatches n e)
  cases hsort : List.insertionSort (fun a b : String => strLe a b = true) (casMatches n e) with
  | nil =>
    exfalso
    rw [hsort] at hperm
    exact h hperm.symm.eq_nil
  | cons a t =>
    rw [hsort] at hperm hsorted
    have hne : (casMatches n e).isEmpty = false := by
      cases heq : (casMatches n e).isEmpty with
      | false => rfl
      | true => exact absurd (List.isEmpty_iff.mp heq) h
    have hfind : findCasFile n e = a := by
      simp only [findCasFile, hne, Bool.false_eq_true, if_false, hsort, List.headD_cons]
    rw [hfind]
    obtain ⟨hmin, _⟩ := List.sorted_cons.mp hsorted
    constructor
    · exact hperm.mem_iff.mp (List.mem_cons_self a t)
    · intro m hm
      rcases List.mem_cons.mp (hperm.mem_iff.mpr hm) with hma | hmt
      · subst hma
        simp only [strLe, strLt, lexLt_irrefl, Bool.not_false]
      · exact hmin m hmt

lemma bas_lt_cas (stem : String) :
    strLt ("software/" ++ stem ++ ".bas") ("software/" ++ stem ++ ".cas") = true := by
  simp only [strLt, String.data_append, List.append_assoc]
  rw [lexLt_append, lexLt_append]
  decide

/-- C9: counterexample. With directory entries `software/abcd.cas` and
`software/ad.bas` and search name "a", both entries match, `ad.bas` has the
strictly shorter filename and the `.bas` extension, yet `find_cas_file`
returns `software/abcd.cas` — the lexicographically smallest path — refuting
both the shortest-filename rule and the `.bas`-preference rule. -/
theorem C9_loader_counterexample :
    findCasFile "a" ["software/abcd.cas", "software/ad.bas"] = "software/abcd.cas" ∧
    "software/ad.bas" ∈ casMatches "a" ["software/abcd.cas", "software/ad.bas"] ∧
    fileExt "software/ad.bas" = ".bas" ∧
    (lastComponent "software/ad.bas").length < (lastComponent "software/abcd.cas").length := by
  refine ⟨by decide, by decide, by decide, by decide⟩

/-- C9 (amended): `find_cas_file` returns "" when no entry matches, and
otherwise returns the lexicographically smallest matching path (it is a match
and is `≤` every match in the byte-wise string order used by `std::sort`);
consequently when a `.bas` file and a `.cas` file with the same stem both
match, the `.cas` twin is never the result. -/
theorem C9_loader_amended (name : String) (entries : List String) :
    (casMatches name entries = [] → findCasFile name entries = "") ∧
    (casMatches name entries ≠ [] →
      findCasFile name entries ∈ casMatches name entries ∧
      ∀ m ∈ casMatches name entries, strLe (findCasFile name entries) m = true) ∧
    (∀ stem : String,
      ("software/" ++ stem ++ ".bas") ∈ casMatches name entries →
      ("software/" ++ stem ++ ".cas") ∈ casMatches name entries →
      findCasFile name entries ≠ "software/" ++ stem ++ ".cas") := by
  refine ⟨findCasFile_empty, findCasFile_headfacts, ?_⟩
  intro stem h1 h2 hbad
  have hne : casMatches name entries ≠ [] := List.ne_nil_of_mem h1
  have hle := (findCasFile_headfacts hne).2 _ h1
  rw [hbad] at hle
  simp only [strLe, Bool.not_eq_true'] at hle
  rw [bas_lt_cas stem] at hle
  exact absurd hle (by simp)

/-- C9 witness: the amended theorem applied at a concrete input. -/
theorem C9_loader_amended_witness :
    findCasFile "a" ["software/ad.bas"] ∈ casMatches "a" ["software/ad.bas"] ∧
    ∀ m ∈ casMatches "a" ["software/ad.bas"],
      strLe (findCasFile "a" ["software/ad.bas"]) m = true :=
  (C9_loader_amended "a" ["software/ad.bas"]).2.1 (by decide)

end Mal80

namespace Mal80

/-! ## Prefix handling of `Z80::step` (claim C3) -/

/-- A flat memory image holding `DD 21 34 12` (LD IX,0x1234) at address 0. -/
def ldIxMem : Nat → Nat := fun a =>
  if a = 0 then 0xDD else if a = 1 then 0x21
  else if a = 2 then 0x34 else if a = 3 then 0x12 else 0

/-- A reset CPU over a flat bus whose memory is `ldIxMem`. -/
def ldIxMachine : Machine :=
  { cpu := cpuReset cpuZero,
    bus := { busInit with flatMode := true, flatMem := ldIxMem } }

/-- Any step that starts with a pending prefix latch ends with it cleared. -/
lemma z80Step_clears_prefix (m : Machine) (h : m.cpu.prefixByte ≠ 0x00) :
    (z80Step m).2.cpu.prefixByte = 0x00 := by
  simp only [z80Step]
  rw [if_pos (by simpa using h)]

/-- `main_table` on any of the four prefix bytes only latches the prefix and
charges 4 T-states. -/
lemma mainTable_prefixLatch (p : Nat)
    (hp : p = 0xCB ∨ p = 0xED ∨ p = 0xDD ∨ p = 0xFD) (m : Machine) :
    mainTable p m = addT 4 { m with cpu := { m.cpu with prefixByte := p } } := by
  rcases hp with h | h | h | h <;> subst h <;> rfl

/-- A non-halted, non-latched step whose fetched opcode is a prefix byte:
the full result is the prefix latch, PC+1, the refresh bump and 4 T-states. -/
lemma z80Step_prefix_fetch (m : Machine) (p : Nat)
    (hnp : m.cpu.prefixByte = 0x00) (hh : m.cpu.halted = false)
    (hv : (busRead m.bus m.cpu.pc true).1 = p)
    (hp : p = 0xCB ∨ p = 0xED ∨ p = 0xDD ∨ p = 0xFD) :
    z80Step m =
      (4, { cpu := { m.cpu with
                     tStates := 4,
                     isM1Cycle := true,
                     pc := (m.cpu.pc + 1) % 65536,
                     r := (m.cpu.r &&& 0x80) ||| ((m.cpu.r + 1) &&& 0x7F),
                     prefixByte := p },
            bus := (busRead m.bus m.cpu.pc true).2 }) := by
  simp only [z80Step, fetch, readMem, hnp, hh]
  rw [if_neg (by simp)]
  rw [if_neg (by simp)]
  rw [hv, mainTable_prefixLatch p hp]
  simp only [addT, if_true, Nat.zero_add]

end Mal80

namespace Mal80

/-- C3: counterexample. From reset with flat memory `DD 21 34 12` at PC=0,
the first `Z80::step` returns after consuming only the DD prefix byte (4
T-states, prefix latched, IX untouched, PC advanced by one); a second step
is needed to complete LD IX,0x1234 (10 more T-states, latch cleared). So a
single step does not execute one architecturally complete instruction. -/
theorem C3_step_counterexample :
    (z80Step ldIxMachine).1 = 4 ∧
    (z80Step ldIxMachine).2.cpu.prefixByte = 0xDD ∧
    (z80Step ldIxMachine).2.cpu.ix = 0 ∧
    (z80Step ldIxMachine).2.cpu.pc = 1 ∧
    (z80Step (z80Step ldIxMachine).2).1 = 10 ∧
    (z80Step (z80Step ldIxMachine).2).2.cpu.ix = 0x1234 ∧
    (z80Step (z80Step ldIxMachine).2).2.cpu.prefixByte = 0x00 ∧
    (z80Step (z80Step ldIxMachine).2).2.cpu.pc = 4 := by
  refine ⟨rfl, rfl, rfl, rfl, rfl, rfl, rfl, rfl⟩

/-- C3 (amended): when `Z80::step` fetches one of the prefix bytes
DD/FD/CB/ED from the main bank, it returns mid-instruction: only 4 T-states
are charged, the prefix is latched, PC advances by one and the data
registers are untouched; the following step dispatches into the prefixed
bank and clears the latch, so a prefixed instruction takes two `step()`
calls (its T-states being split across their return values). -/
theorem C3_step_amended (m : Machine) (p : Nat)
    (hnp : m.cpu.prefixByte = 0x00) (hh : m.cpu.halted = false)
    (hv : (busRead m.bus m.cpu.pc true).1 = p)
    (hp : p = 0xCB ∨ p = 0xED ∨ p = 0xDD ∨ p = 0xFD) :
    (z80Step m).1 = 4 ∧
    (z80Step m).2.cpu.prefixByte = p ∧
    (z80Step m).2.cpu.pc = (m.cpu.pc + 1) % 65536 ∧
    (z80Step m).2.cpu.a = m.cpu.a ∧
    (z80Step m).2.cpu.bc = m.cpu.bc ∧
    (z80Step m).2.cpu.de = m.cpu.de ∧
    (z80Step m).2.cpu.hl = m.cpu.hl ∧
    (z80Step m).2.cpu.sp = m.cpu.sp ∧
    (z80Step m).2.cpu.ix = m.cpu.ix ∧
    (z80Step m).2.cpu.iy = m.cpu.iy ∧
    (z80Step (z80Step m).2).2.cpu.prefixByte = 0x00 := by
  have hstep := z80Step_prefix_fetch m p hnp hh hv hp
  have hp0 : p ≠ 0x00 := by rcases hp with h | h | h | h <;> subst h <;> decide
  refine ⟨by rw [hstep], by rw [hstep], by rw [hstep], by rw [hstep], by rw [hstep],
          by rw [hstep], by rw [hstep], by rw [hstep], by rw [hstep], by rw [hstep], ?_⟩
  apply z80Step_clears_prefix
  rw [hstep]
  exact hp0

/-- C3 witness: the amended theorem applied to the reset machine with flat
memory `DD 21 34 12`. -/
theorem C3_step_amended_witness :
    (z80Step ldIxMachine).1 = 4 ∧
    (z80Step ldIxMachine).2.cpu.prefixByte = 0xDD ∧
    (z80Step ldIxMachine).2.cpu.pc = (ldIxMachine.cpu.pc + 1) % 65536 ∧
    (z80Step ldIxMachine).2.cpu.a = ldIxMachine.cpu.a ∧
    (z80Step ldIxMachine).2.cpu.bc = ldIxMachine.cpu.bc ∧
    (z80Step ldIxMachine).2.cpu.de = ldIxMachine.cpu.de ∧
    (z80Step ldIxMachine).2.cpu.hl = ldIxMachine.cpu.hl ∧
    (z80Step ldIxMachine).2.cpu.sp = ldIxMachine.cpu.sp ∧
    (z80Step ldIxMachine).2.cpu.ix = ldIxMachine.cpu.ix ∧
    (z80Step ldIxMachine).2.cpu.iy = ldIxMachine.cpu.iy ∧
    (z80Step (z80Step ldIxMachine).2).2.cpu.prefixByte = 0x00 :=
  C3_step_amended ldIxMachine 0xDD rfl rfl rfl (by decide)

end Mal80

namespace Mal80

/-! ## LDIR with BC=0 (claim C4)

One architectural LDIR iteration is two `Z80::step` calls: the first
latches the ED prefix, the second dispatches `ed_table[0xB0]`. The theorems
run over the flat-memory bus mode, where reads and writes are exactly
`flatMem` accesses. -/

/-- Two consecutive `Z80::step` calls. -/
def stepPair (m : Machine) : Machine := (z80Step (z80Step m).2).2

/-- `k` LDIR iterations = `2k` steps. -/
def stepPairN (k : Nat) (m : Machine) : Machine := stepPair^[k] m

lemma stepPairN_succ (k : Nat) (m : Machine) :
    stepPairN (k + 1) m = stepPair (stepPairN k m) := by
  unfold stepPairN
  rw [Function.iterate_succ_apply']

lemma busRead_flat (s : BusState) (a : Nat) (b : Bool) (h : s.flatMode = true) :
    busRead s a b = (s.flatMem a, s) := by
  simp [busRead, h]

lemma busWrite_flat (s : BusState) (a v : Nat) (h : s.flatMode = true) :
    busWrite s a v = { s with flatMem := Function.update s.flatMem a v } := by
  simp [busWrite, h]

/-- One LDIR iteration in flat mode with BC about to stay nonzero: copies
the byte at HL to DE, bumps HL/DE, decrements BC, rewinds PC, charges
4 + 17 T-states across the two steps. -/
lemma stepPair_ldir (m : Machine)
    (hfl : m.bus.flatMode = true)
    (hnp : m.cpu.prefixByte = 0x00) (hh : m.cpu.halted = false)
    (h1 : m.bus.flatMem m.cpu.pc = 0xED)
    (h2 : m.bus.flatMem ((m.cpu.pc + 1) % 65536) = 0xB0)
    (hbc : m.cpu.bc % 65536 ≠ 1) :
    stepPair m =
      { cpu := { m.cpu with
                 tStates := 0 + 17,
                 isM1Cycle := true,
                 pc := (((m.cpu.pc + 1) % 65536 + 1) % 65536 + 65534) % 65536,
                 r := (((m.cpu.r &&& 0x80) ||| ((m.cpu.r + 1) &&& 0x7F)) &&& 0x80) |||
                      ((((m.cpu.r &&& 0x80) ||| ((m.cpu.r + 1) &&& 0x7F)) + 1) &&& 0x7F),
                 prefixByte := 0x00,
                 hl := (m.cpu.hl + 1) % 65536,
                 de := (m.cpu.de + 1) % 65536,
                 bc := (m.cpu.bc + 65535) % 65536,
                 f := setFlag (setFlag (setFlag (setFlag (setFlag m.cpu.f FLAG_H false)
                          FLAG_N false) FLAG_P false)
                          FLAG_F5 ((m.cpu.a + m.bus.flatMem m.cpu.hl) % 256 &&& 0x02 != 0))
                          FLAG_F3 ((m.cpu.a + m.bus.flatMem m.cpu.hl) % 256 &&& 0x08 != 0) },
        bus := { m.bus with
                 flatMem := Function.update m.bus.flatMem m.cpu.de
                              (m.bus.flatMem m.cpu.hl) } } := by
  have hstep1 := z80Step_prefix_fetch m 0xED hnp hh
    (by rw [busRead_flat _ _ _ hfl]; exact h1) (by simp)
  rw [busRead_flat _ _ _ hfl] at hstep1
  unfold stepPair
  rw [hstep1]
  simp only [z80Step]
  rw [if_pos (by simp)]
  rw [if_neg (by simp), if_pos (by simp)]
  simp only [fetch, readMem, busRead_flat _ _ _ hfl]
  rw [h2]
  simp only [edTable]
  rw [if_neg (by simp), if_neg (by simp), if_pos (by simp)]
  simp only [edLdir, readMem, writeMem, busRead_flat _ _ _ hfl, busWrite_flat _ _ _ hfl,
             setFlagM, addT, if_true]
  rw [if_pos (by omega)]

/-- The final LDIR iteration (BC = 1 before the step): no rewind, 4 + 12
T-states. -/
lemma stepPair_ldir_last (m : Machine)
    (hfl : m.bus.flatMode = true)
    (hnp : m.cpu.prefixByte = 0x00) (hh : m.cpu.halted = false)
    (h1 : m.bus.flatMem m.cpu.pc = 0xED)
    (h2 : m.bus.flatMem ((m.cpu.pc + 1) % 65536) = 0xB0)
    (hbc : m.cpu.bc % 65536 = 1) :
    stepPair m =
      { cpu := { m.cpu with
                 tStates := 0 + 12,
                 isM1Cycle := true,
                 pc := ((m.cpu.pc + 1) % 65536 + 1) % 65536,
                 r := (((m.cpu.r &&& 0x80) ||| ((m.cpu.r + 1) &&& 0x7F)) &&& 0x80) |||
                      ((((m.cpu.r &&& 0x80) ||| ((m.cpu.r + 1) &&& 0x7F)) + 1) &&& 0x7F),
                 prefixByte := 0x00,
                 hl := (m.cpu.hl + 1) % 65536,
                 de := (m.cpu.de + 1) % 65536,
                 bc := (m.cpu.bc + 65535) % 65536,
                 f := setFlag (setFlag (setFlag (setFlag (setFlag m.cpu.f FLAG_H false)
                          FLAG_N false) FLAG_P false)
                          FLAG_F5 ((m.cpu.a + m.bus.flatMem m.cpu.hl) % 256 &&& 0x02 != 0))
                          FLAG_F3 ((m.cpu.a + m.bus.flatMem m.cpu.hl) % 256 &&& 0x08 != 0) },
        bus := { m.bus with
                 flatMem := Function.update m.bus.flatMem m.cpu.de
                              (m.bus.flatMem m.cpu.hl) } } := by
  have hstep1 := z80Step_prefix_fetch m 0xED hnp hh
    (by rw [busRead_flat _ _ _ hfl]; exact h1) (by simp)
  rw [busRead_flat _ _ _ hfl] at hstep1
  unfold stepPair
  rw [hstep1]
  simp only [z80Step]
  rw [if_pos (by simp)]
  rw [if_neg (by simp), if_pos (by simp)]
  simp only [fetch, readMem, busRead_flat _ _ _ hfl]
  rw [h2]
  simp only [edTable]
  rw [if_neg (by simp), if_neg (by simp), if_pos (by simp)]
  simp only [edLdir, readMem, writeMem, busRead_flat _ _ _ hfl, busWrite_flat _ _ _ hfl,
             setFlagM, addT, if_true]
  rw [if_neg (by omega)]

/-- The projections of a non-final LDIR iteration that the induction uses. -/
lemma stepPair_ldir_fields (m : Machine)
    (hfl : m.bus.flatMode = true)
    (hnp : m.cpu.prefixByte = 0x00) (hh : m.cpu.halted = false)
    (hpc : m.cpu.pc < 65536)
    (h1 : m.bus.flatMem m.cpu.pc = 0xED)
    (h2 : m.bus.flatMem ((m.cpu.pc + 1) % 65536) = 0xB0)
    (hbc : m.cpu.bc % 65536 ≠ 1) :
    (stepPair m).cpu.prefixByte = 0x00 ∧
    (stepPair m).cpu.halted = false ∧
    (stepPair m).cpu.pc = m.cpu.pc ∧
    (stepPair m).cpu.hl = (m.cpu.hl + 1) % 65536 ∧
    (stepPair m).cpu.de = (m.cpu.de + 1) % 65536 ∧
    (stepPair m).cpu.bc = (m.cpu.bc + 65535) % 65536 ∧
    (stepPair m).cpu.tStates = 17 ∧
    (stepPair m).bus.flatMode = true ∧
    (stepPair m).bus.flatMem =
      Function.update m.bus.flatMem m.cpu.de (m.bus.flatMem m.cpu.hl) := by
  rw [stepPair_ldir m hfl hnp hh h1 h2 hbc]
  refine ⟨rfl, hh, ?_, rfl, rfl, rfl, rfl, hfl, rfl⟩
  show (((m.cpu.pc + 1) % 65536 + 1) % 65536 + 65534) % 65536 = m.cpu.pc
  omega

/-- The projections of the final LDIR iteration. -/
lemma stepPair_ldir_last_fields (m : Machine)
    (hfl : m.bus.flatMode = true)
    (hnp : m.cpu.prefixByte = 0x00) (hh : m.cpu.halted = false)
    (h1 : m.bus.flatMem m.cpu.pc = 0xED)
    (h2 : m.bus.flatMem ((m.cpu.pc + 1) % 65536) = 0xB0)
    (hbc : m.cpu.bc % 65536 = 1) :
    (stepPair m).cpu.prefixByte = 0x00 ∧
    (stepPair m).cpu.halted = false ∧
    (stepPair m).cpu.pc = (m.cpu.pc + 2) % 65536 ∧
    (stepPair m).cpu.hl = (m.cpu.hl + 1) % 65536 ∧
    (stepPair m).cpu.de = (m.cpu.de + 1) % 65536 ∧
    (stepPair m).cpu.bc = (m.cpu.bc + 65535) % 65536 ∧
    (stepPair m).cpu.tStates = 12 ∧
    (stepPair m).bus.flatMode = true ∧
    (stepPair m).bus.flatMem =
      Function.update m.bus.flatMem m.cpu.de (m.bus.flatMem m.cpu.hl) := by
  rw [stepPair_ldir_last m hfl hnp hh h1 h2 hbc]
  refine ⟨rfl, hh, ?_, rfl, rfl, rfl, rfl, hfl, rfl⟩
  show ((m.cpu.pc + 1) % 65536 + 1) % 65536 = (m.cpu.pc + 2) % 65536
  omega

/-- Register invariant across the first 65,535 LDIR iterations started with
BC = 0: PC keeps returning to the opcode, HL/DE advance by one per
iteration, BC counts 0, 65535, 65534, …. -/
lemma ldir_run (m : Machine)
    (hfl : m.bus.flatMode = true)
    (hnp : m.cpu.prefixByte = 0x00) (hh : m.cpu.halted = false)
    (hpc : m.cpu.pc < 65536) (hhl : m.cpu.hl < 65536) (hde : m.cpu.de < 65536)
    (hbc : m.cpu.bc = 0)
    (hint : ∀ k, k < 65536 →
      (stepPairN k m).bus.flatMem m.cpu.pc = 0xED ∧
      (stepPairN k m).bus.flatMem ((m.cpu.pc + 1) % 65536) = 0xB0) :
    ∀ k, k ≤ 65535 →
      (stepPairN k m).cpu.prefixByte = 0x00 ∧
      (stepPairN k m).cpu.halted = false ∧
      (stepPairN k m).cpu.pc = m.cpu.pc ∧
      (stepPairN k m).cpu.hl = (m.cpu.hl + k) % 65536 ∧
      (stepPairN k m).cpu.de = (m.cpu.de + k) % 65536 ∧
      (stepPairN k m).cpu.bc = (65536 - k) % 65536 ∧
      (stepPairN k m).bus.flatMode = true := by
  intro k
  induction k with
  | zero =>
    intro _
    refine ⟨hnp, hh, rfl, ?_, ?_, ?_, hfl⟩
    · show m.cpu.hl = (m.cpu.hl + 0) % 65536
      omega
    · show m.cpu.de = (m.cpu.de + 0) % 65536
      omega
    · show m.cpu.bc = (65536 - 0) % 65536
      omega
  | succ k ih =>
    intro hk1
    obtain ⟨ip, ihh, ipc, ihl, ide, ibc, ifl⟩ := ih (by omega)
    have hintk := hint k (by omega)
    have hf := stepPair_ldir_fields (stepPairN k m) ifl ip ihh (by rw [ipc]; exact hpc)
      (by rw [ipc]; exact hintk.1) (by rw [ipc]; exact hintk.2)
      (by rw [ibc]; omega)
    obtain ⟨f1, f2, f3, f4, f5, f6, f7, f8, f9⟩ := hf
    rw [stepPairN_succ]
    exact ⟨f1, f2, by rw [f3, ipc], by rw [f4, ihl]; omega, by rw [f5, ide]; omega,
           by rw [f6, ibc]; omega, f8⟩

/-- Each of the 65,536 iterations copies one byte: the byte at HL+k is
written to DE+k (addresses mod 2^16), in the memory as it stands at
iteration k. -/
lemma ldir_run_mem (m : Machine)
    (hfl : m.bus.flatMode = true)
    (hnp : m.cpu.prefixByte = 0x00) (hh : m.cpu.halted = false)
    (hpc : m.cpu.pc < 65536) (hhl : m.cpu.hl < 65536) (hde : m.cpu.de < 65536)
    (hbc : m.cpu.bc = 0)
    (hint : ∀ k, k < 65536 →
      (stepPairN k m).bus.flatMem m.cpu.pc = 0xED ∧
      (stepPairN k m).bus.flatMem ((m.cpu.pc + 1) % 65536) = 0xB0) :
    ∀ k, k < 65536 →
      (stepPairN (k + 1) m).bus.flatMem =
        Function.update (stepPairN k m).bus.flatMem ((m.cpu.de + k) % 65536)
          ((stepPairN k m).bus.flatMem ((m.cpu.hl + k) % 65536)) := by
  intro k hk
  obtain ⟨ip, ihh, ipc, ihl, ide, ibc, ifl⟩ :=
    ldir_run m hfl hnp hh hpc hhl hde hbc hint k (by omega)
  have hintk := hint k (by omega)
  rw [stepPairN_succ]
  by_cases hlast : k = 65535
  · obtain ⟨_, _, _, _, _, _, _, _, f9⟩ :=
      stepPair_ldir_last_fields (stepPairN k m) ifl ip ihh
        (by rw [ipc]; exact hintk.1) (by rw [ipc]; exact hintk.2)
        (by rw [ibc]; omega)
    rw [f9, ide, ihl]
  · obtain ⟨_, _, _, _, _, _, _, _, f9⟩ :=
      stepPair_ldir_fields (stepPairN k m) ifl ip ihh (by rw [ipc]; exact hpc)
        (by rw [ipc]; exact hintk.1) (by rw [ipc]; exact hintk.2)
        (by rw [ibc]; omega)
    rw [f9, ide, ihl]

/-- C4: LDIR executed with BC = 0 beforehand (flat-memory bus, `ED B0` still
readable at PC on the entry of each of the 65,536 iterations): BC decrements
through 65535, 65534, … with PC rewound to the opcode on every non-final
iteration, each iteration k copies the byte at HL+k to DE+k, and after
65,536 iterations (2 × 65,536 `step()` calls) BC = 0, HL and DE have
advanced by 65,536 mod 2^16, and PC rests past the instruction. -/
theorem C4_ldir_wraparound (m : Machine)
    (hfl : m.bus.flatMode = true)
    (hnp : m.cpu.prefixByte = 0x00) (hh : m.cpu.halted = false)
    (hpc : m.cpu.pc < 65536) (hhl : m.cpu.hl < 65536) (hde : m.cpu.de < 65536)
    (hbc : m.cpu.bc = 0)
    (hint : ∀ k, k < 65536 →
      (stepPairN k m).bus.flatMem m.cpu.pc = 0xED ∧
      (stepPairN k m).bus.flatMem ((m.cpu.pc + 1) % 65536) = 0xB0) :
    (stepPairN 65536 m).cpu.bc = 0 ∧
    (stepPairN 65536 m).cpu.hl = (m.cpu.hl + 65536) % 65536 ∧
    (stepPairN 65536 m).cpu.de = (m.cpu.de + 65536) % 65536 ∧
    (stepPairN 65536 m).cpu.pc = (m.cpu.pc + 2) % 65536 ∧
    (∀ k, k ≤ 65535 →
      (stepPairN k m).cpu.bc = (65536 - k) % 65536 ∧
      (stepPairN k m).cpu.pc = m.cpu.pc) ∧
    (∀ k, k < 65536 →
      (stepPairN (k + 1) m).bus.flatMem =
        Function.update (stepPairN k m).bus.flatMem ((m.cpu.de + k) % 65536)
          ((stepPairN k m).bus.flatMem ((m.cpu.hl + k) % 65536))) := by
  obtain ⟨ip, ihh, ipc, ihl, ide, ibc, ifl⟩ :=
    ldir_run m hfl hnp hh hpc hhl hde hbc hint 65535 (by omega)
  have hintk := hint 65535 (by omega)
  obtain ⟨f1, f2, f3, f4, f5, f6, f7, f8, f9⟩ :=
    stepPair_ldir_last_fields (stepPairN 65535 m) ifl ip ihh
      (by rw [ipc]; exact hintk.1) (by rw [ipc]; exact hintk.2)
      (by rw [ibc])
  have hs : stepPairN 65536 m = stepPair (stepPairN 65535 m) := stepPairN_succ 65535 m
  refine ⟨?_, ?_, ?_, ?_, ?_, ldir_run_mem m hfl hnp hh hpc hhl hde hbc hint⟩
  · rw [hs, f6, ibc]
  · rw [hs, f4, ihl]
    omega
  · rw [hs, f5, ide]
    omega
  · rw [hs, f3, ipc]
  · intro k hk
    obtain ⟨_, _, jpc, _, _, jbc, _⟩ := ldir_run m hfl hnp hh hpc hhl hde hbc hint k hk
    exact ⟨jbc, jpc⟩

/-- Flat memory holding `ED B0` at 0, zero elsewhere: LDIR from HL=DE=0
copies every byte onto itself, so the program is never destroyed. -/
def ldirSelfMem : Nat → Nat := fun a =>
  if a = 0 then 0xED else if a = 1 then 0xB0 else 0x00

/-- A reset CPU (PC=0, BC=HL=DE=0) over a flat bus holding `ldirSelfMem`. -/
def ldirMachine : Machine :=
  { cpu := cpuReset cpuZero,
    bus := { busInit with flatMode := true, flatMem := ldirSelfMem } }

/-- On `ldirMachine` the memory is invariant (each iteration writes the byte
it just read to the same address), so `ED B0` stays fetchable forever. -/
lemma ldirSelf_invariant : ∀ k, k ≤ 65535 →
    (stepPairN k ldirMachine).cpu.prefixByte = 0x00 ∧
    (stepPairN k ldirMachine).cpu.halted = false ∧
    (stepPairN k ldirMachine).cpu.pc = 0 ∧
    (stepPairN k ldirMachine).cpu.hl = k % 65536 ∧
    (stepPairN k ldirMachine).cpu.de = k % 65536 ∧
    (stepPairN k ldirMachine).cpu.bc = (65536 - k) % 65536 ∧
    (stepPairN k ldirMachine).bus.flatMode = true ∧
    (stepPairN k ldirMachine).bus.flatMem = ldirSelfMem := by
  intro k
  induction k with
  | zero =>
    intro _
    exact ⟨rfl, rfl, rfl, rfl, rfl, by decide, rfl, rfl⟩
  | succ k ih =>
    intro hk1
    obtain ⟨ip, ihh, ipc, ihl, ide, ibc, ifl, imem⟩ := ih (by omega)
    obtain ⟨f1, f2, f3, f4, f5, f6, f7, f8, f9⟩ :=
      stepPair_ldir_fields (stepPairN k ldirMachine) ifl ip ihh
        (by rw [ipc]; omega)
        (by rw [ipc, imem]; rfl)
        (by rw [ipc, imem]; rfl)
        (by rw [ibc]; omega)
    rw [stepPairN_succ]
    refine ⟨f1, f2, by rw [f3, ipc], by rw [f4, ihl]; omega, by rw [f5, ide]; omega,
            by rw [f6, ibc]; omega, f8, ?_⟩
    rw [f9, imem, ihl, ide]
    exact Function.update_eq_self _ _

/-- C4 witness: the theorem applied to `ldirMachine`, whose self-copy keeps
the fetch hypothesis true on every iteration. -/
theorem C4_ldir_wraparound_witness :
    (stepPairN 65536 ldirMachine).cpu.bc = 0 ∧
    (stepPairN 65536 ldirMachine).cpu.hl = (ldirMachine.cpu.hl + 65536) % 65536 ∧
    (stepPairN 65536 ldirMachine).cpu.de = (ldirMachine.cpu.de + 65536) % 65536 ∧
    (stepPairN 65536 ldirMachine).cpu.pc = (ldirMachine.cpu.pc + 2) % 65536 := by
  have h := C4_ldir_wraparound ldirMachine rfl rfl rfl (by decide) (by decide) (by decide) rfl
    (fun k hk => by
      obtain ⟨_, _, _, _, _, _, _, imem⟩ := ldirSelf_invariant k (by omega)
      rw [imem]
      exact ⟨rfl, rfl⟩)
  exact ⟨h.1, h.2.1, h.2.2.1, h.2.2.2.1⟩

end Mal80
namespace Mal80

/-! ## IFF1 → IFF2 invariant (claim C10)

The only assignments to the flip-flops in the embedded system are DI, EI
(both set IFF1 and IFF2 together), RETN/RETI (IFF1 ← IFF2) and
`Emulator::deliver_interrupt` (IFF2 ← IFF1, then IFF1 ← false). The system
is modelled as an arbitrary interleaving of CPU steps (with the frame
driver's tick accounting) and delivery checks, from reset. -/

/-- `IFF1 = 1 → IFF2 = 1`. -/
def iffImp (c : CPUState) : Prop := c.iff1 = true → c.iff2 = true

/-- One frame-driver action: a CPU step (with tick accounting) or an
interrupt-delivery check. -/
inductive SysOp where
  | cpuStep : SysOp
  | deliverInt : SysOp

/-- Apply one action to the emulator state and frame tick counter. -/
def applySysOp (op : SysOp) (ef : EmuState × Nat) : EmuState × Nat :=
  match op with
  | SysOp.cpuStep =>
      let r := z80Step ⟨ef.1.cpu, ef.1.bus⟩
      (⟨r.2.cpu, addTicks r.1 r.2.bus, ef.1.totalTicks + r.1⟩, ef.2 + r.1)
  | SysOp.deliverInt => deliverInterrupt ef.1 ef.2

/-- Run a sequence of actions. -/
def runOps (l : List SysOp) (ef : EmuState × Nat) : EmuState × Nat :=
  l.foldl (fun acc op => applySysOp op acc) ef

/-- The reset emulator. -/
def emuReset : EmuState := ⟨cpuReset cpuZero, busInit, 0⟩

lemma fetch_iff (m : Machine) (b : Bool) :
    (fetch m b).2.cpu.iff1 = m.cpu.iff1 ∧ (fetch m b).2.cpu.iff2 = m.cpu.iff2 := by
  cases b <;> exact ⟨rfl, rfl⟩

lemma edLdir_iff (m : Machine) :
    (edLdir m).cpu.iff1 = m.cpu.iff1 ∧ (edLdir m).cpu.iff2 = m.cpu.iff2 := by
  simp only [edLdir, readMem, writeMem, setFlagM, addT]
  constructor <;> · split <;> rfl

lemma edTable_iffImp (op : Nat) (m : Machine) (h : iffImp m.cpu) :
    iffImp (edTable op m).cpu := by
  unfold edTable
  split
  · exact fun hh => hh
  split
  · exact fun hh => hh
  split
  · intro hh
    rw [(edLdir_iff m).1] at hh
    rw [(edLdir_iff m).2]
    exact h hh
  · exact h

lemma ddTable_iffImp (op : Nat) (m : Machine) (h : iffImp m.cpu) :
    iffImp (ddTable op m).cpu := by
  unfold ddTable
  split
  · exact h
  · exact h

lemma mainTable_iffImp (op : Nat) (m : Machine) (h : iffImp m.cpu) :
    iffImp (mainTable op m).cpu := by
  unfold mainTable
  split
  · exact h
  split
  · exact h
  split
  · exact fun hh => hh
  split
  · exact fun hh => hh
  split
  · exact h
  split
  · exact h
  split
  · exact h
  split
  · exact h
  · exact h

lemma iffImp_fetch (m : Machine) (b : Bool) (h : iffImp m.cpu) :
    iffImp (fetch m b).2.cpu := by
  cases b <;> exact h

lemma iffImp_addT (t : Nat) (m : Machine) (h : iffImp m.cpu) :
    iffImp (addT t m).cpu := h

lemma iffImp_set_pc (m : Machine) (x : Nat) (h : iffImp m.cpu) :
    iffImp ({ m with cpu := { m.cpu with pc := x } }).cpu := h

lemma iffImp_set_prefix (m : Machine) (x : Nat) (h : iffImp m.cpu) :
    iffImp ({ m with cpu := { m.cpu with prefixByte := x } }).cpu := h

/-- `Z80::step` preserves the implication: DI/EI write both flip-flops
together, RETN/RETI copy IFF2 into IFF1, and nothing else writes them. -/
lemma z80Step_iffImp (m : Machine) (h : iffImp m.cpu) :
    iffImp (z80Step m).2.cpu := by
  simp only [z80Step]
  split
  · refine iffImp_set_prefix _ _ ?_
    split
    · exact iffImp_addT _ _ (iffImp_fetch _ _ h)
    split
    · exact edTable_iffImp _ _ (iffImp_fetch _ _ h)
    split
    · exact ddTable_iffImp _ _ (iffImp_fetch _ _ h)
    split
    · exact iffImp_addT _ _ (iffImp_fetch _ _ h)
    · exact iffImp_fetch _ _ h
  split
  · exact iffImp_set_pc _ _ (iffImp_addT _ _ (iffImp_fetch _ _ h))
  · exact mainTable_iffImp _ _ (iffImp_fetch _ _ h)

/-- `Emulator::deliver_interrupt` preserves the implication (after an
acceptance IFF1 is false, so it holds vacuously). -/
lemma deliverInterrupt_iffImp (e : EmuState) (f : Nat) (h : iffImp e.cpu) :
    iffImp ((deliverInterrupt e f).1).cpu := by
  simp only [deliverInterrupt, clearInterrupt]
  split
  · exact h
  · split <;> exact fun hh => absurd hh (by simp)

lemma runOps_iffImp (l : List SysOp) :
    ∀ ef : EmuState × Nat, iffImp ef.1.cpu → iffImp (runOps l ef).1.cpu := by
  induction l with
  | nil => exact fun ef h => h
  | cons op l ih =>
    intro ef h
    have hstep : iffImp (applySysOp op ef).1.cpu := by
      cases op with
      | cpuStep => exact z80Step_iffImp ⟨ef.1.cpu, ef.1.bus⟩ h
      | deliverInt => exact deliverInterrupt_iffImp ef.1 ef.2 h
    exact ih (applySysOp op ef) hstep

/-- C10: in every state reachable from reset by CPU steps and delivery
checks, IFF1 set implies IFF2 set; and under that invariant an interrupt
delivery leaves IFF2 with its pre-acceptance value. -/
theorem C10_iff_invariant :
    (∀ l : List SysOp, iffImp ((runOps l (emuReset, 0)).1.cpu)) ∧
    (∀ (e : EmuState) (f : Nat), iffImp e.cpu →
      ((deliverInterrupt e f).1).cpu.iff2 = e.cpu.iff2) := by
  constructor
  · intro l
    exact runOps_iffImp l (emuReset, 0) (fun hh => absurd hh (by decide))
  · intro e f h
    by_cases hg : interruptPending e.bus = true ∧ e.cpu.iff1 = true
    · rw [deliverInterrupt_eq e f hg.1 hg.2]
      show e.cpu.iff1 = e.cpu.iff2
      rw [hg.2, h hg.2]
    · unfold deliverInterrupt
      rw [if_pos hg]

/-- C10 witness: the invariant after one step and one delivery check from
reset, and IFF2 preservation at the reset state. -/
theorem C10_iff_invariant_witness :
    iffImp ((runOps [SysOp.cpuStep, SysOp.deliverInt] (emuReset, 0)).1.cpu) ∧
    ((deliverInterrupt emuReset 0).1).cpu.iff2 = emuReset.cpu.iff2 :=
  ⟨C10_iff_invariant.1 [SysOp.cpuStep, SysOp.deliverInt],
   C10_iff_invariant.2 emuReset 0 (fun hh => absurd hh (by decide))⟩

end Mal80
namespace Mal80

/-- Core of `Bus::get_cassette_signal` while PLAYING with nonempty data, as
a function of the elapsed ticks since playback start. -/
def cassetteSignal (data : List Nat) (elapsed : Nat) : Bool :=
  if elapsed < CAS_HALF_0 then false
  else
    let dataElapsed := elapsed - CAS_HALF_0
    let tPerByte := CAS_BIT_PERIOD * 8
    let byteIdx := dataElapsed / tPerByte
    let currentByte := data.getD byteIdx 0x00
    let byteOffset := dataElapsed % tPerByte
    let bitIdx := byteOffset / CAS_BIT_PERIOD
    let bitOffset := byteOffset % CAS_BIT_PERIOD
    let bitVal := (currentByte >>> (7 - bitIdx)) &&& 1
    let halfPeriod := if bitVal = 1 then CAS_HALF_1 else CAS_HALF_0
    let phase := bitOffset / halfPeriod
    phase % 2 = 0

/-- `Bus::get_cassette_signal` including the idle-toggle branch. -/
def getCassetteSignal (s : BusState) : Bool :=
  if s.casState ≠ CassetteState.PLAYING ∨ s.casData.isEmpty then
    (s.globalTStates / 1000) % 2 = 0
  else
    cassetteSignal s.casData (s.globalTStates - s.casPlaybackStartT)

/-- `Bus::record_bit`: shift the bit into the assembly byte; push a finished
byte after eight bits. -/
def recordBit (s : BusState) (bit : Bool) : BusState :=
  let b := ((s.casRecByte <<< 1) ||| (if bit then 1 else 0)) % 256
  let cnt := s.casRecBitCount + 1
  if cnt = 8 then
    { s with casRecData := s.casRecData ++ [b], casRecByte := 0, casRecBitCount := 0 }
  else
    { s with casRecByte := b, casRecBitCount := cnt }

/-- `Bus::on_cycle_start` at tick `now`: classify the interval since the
previous rising edge. -/
def onCycleStart (s : BusState) (now : Nat) : BusState :=
  if s.casLastCycleT = 0 then
    { s with casLastCycleT := now, casRecCycleCount := 1 }
  else
    let interval := now - s.casLastCycleT
    let s := { s with casLastCycleT := now }
    if interval > CAS_IDLE_TIMEOUT then
      { s with casRecCycleCount := 1 }
    else if interval > CAS_CYCLE_THRESH then
      let s := if s.casRecCycleCount = 1 then recordBit s false else s
      { s with casRecCycleCount := 1 }
    else
      let s := { s with casRecCycleCount := s.casRecCycleCount + 1 }
      if s.casRecCycleCount = 2 then
        { recordBit s true with casRecCycleCount := 0 }
      else s

/-- `Bus::on_cassette_write`: rising edge of bit 0 of the port value starts
a cycle. -/
def onCassetteWrite (s : BusState) (val : Nat) : BusState :=
  if s.casState ≠ CassetteState.RECORDING then s
  else
    let newBits := val &&& 0x03
    let oldBits := s.casPrevPortVal &&& 0x03
    let s := { s with casLastActivityT := s.globalTStates }
    if newBits &&& 0x01 != 0 ∧ oldBits &&& 0x01 = 0 then
      onCycleStart s s.globalTStates
    else s

/-- `Bus::flush_recording` (the in-memory part: the pending single-cycle 0
bit, then any partial byte, zero-padded from the right). -/
def flushRecording (s : BusState) : BusState :=
  let s := if s.casRecCycleCount = 1 then recordBit s false else s
  if s.casRecBitCount > 0 then
    { s with
      casRecData := s.casRecData ++ [(s.casRecByte <<< (8 - s.casRecBitCount)) % 256],
      casRecByte := (s.casRecByte <<< (8 - s.casRecBitCount)) % 256,
      casRecBitCount := 0 }
  else s

/-- The eight bits of a byte, most significant first (as both the playback
generator and `record_bit` order them). -/
def bitsOfByte (b : Nat) : List Bool :=
  [(b >>> 7) &&& 1 != 0, (b >>> 6) &&& 1 != 0, (b >>> 5) &&& 1 != 0, (b >>> 4) &&& 1 != 0,
   (b >>> 3) &&& 1 != 0, (b >>> 2) &&& 1 != 0, (b >>> 1) &&& 1 != 0, b &&& 1 != 0]

/-- The bit stream of a byte stream. -/
def bitsOfStream (data : List Nat) : List Bool := (data.map bitsOfByte).flatten

/-- The rising-edge times of the playback waveform for a bit list whose
first bit period starts at `t`: every period starts with a rising edge, and
a 1-bit has a second rising edge at its second cycle (`t + 2·887`). -/
def edgesAux : List Bool → Nat → List Nat
  | [], _ => []
  | b :: rest, t =>
    if b then t :: (t + 2 * CAS_HALF_1) :: edgesAux rest (t + CAS_BIT_PERIOD)
    else t :: edgesAux rest (t + CAS_BIT_PERIOD)

/-- The rising-edge times of the playback waveform of a byte stream (the
first bit period starts after the LOW lead-in). -/
def risingEdges (data : List Nat) : List Nat := edgesAux (bitsOfStream data) CAS_HALF_0

/-- Feed a sequence of rising-edge ticks to the recording decoder. -/
def decodeEdges (s : BusState) (ts : List Nat) : BusState := ts.foldl onCycleStart s

/-- Record a list of bits. -/
def recordBits (s : BusState) (bs : List Bool) : BusState := bs.foldl recordBit s

/-- The half-period the generator uses for a bit. -/
def halfOf (bit : Bool) : Nat := if bit then CAS_HALF_1 else CAS_HALF_0

/-- The square wave within one bit period. -/
def bitWave (bit : Bool) (off : Nat) : Bool := (off / halfOf bit) % 2 = 0


lemma recordBit_timing (s : BusState) (x c : Nat) (b : Bool) :
    recordBit { s with casLastCycleT := x, casRecCycleCount := c } b =
      { recordBit s b with casLastCycleT := x, casRecCycleCount := c } := by
  cases s
  simp only [recordBit]
  split <;> rfl

lemma recordBit_timing1 (s : BusState) (x : Nat) (b : Bool) :
    recordBit { s with casLastCycleT := x } b =
      { recordBit s b with casLastCycleT := x } := by
  cases s
  simp only [recordBit]
  split <;> rfl

def entryOk (s : BusState) (t : Nat) (prev : Option Bool) : Prop :=
  match prev with
  | none => s.casLastCycleT = 0 ∧ s.casRecCycleCount = 0
  | some false =>
      s.casLastCycleT + CAS_BIT_PERIOD = t ∧ s.casRecCycleCount = 1 ∧ 0 < s.casLastCycleT
  | some true =>
      s.casLastCycleT + 2 * CAS_HALF_1 = t ∧ s.casRecCycleCount = 0 ∧ 0 < s.casLastCycleT

def pendingOf (prev : Option Bool) : List Bool :=
  if prev = some false then [false] else []

lemma onCycleStart_entry (s : BusState) (t : Nat) (prev : Option Bool)
    (ht : 0 < t) (h : entryOk s t prev) :
    onCycleStart s t =
      { recordBits s (pendingOf prev) with casLastCycleT := t, casRecCycleCount := 1 } := by
  match prev with
  | none =>
    obtain ⟨h1, h2⟩ := h
    simp only [onCycleStart, pendingOf, recordBits, List.foldl]
    rw [if_pos h1]
  | some true =>
    obtain ⟨h1, h2, h3⟩ := h
    simp only [CAS_HALF_1] at h1
    simp only [onCycleStart, pendingOf, recordBits, List.foldl,
               CAS_IDLE_TIMEOUT, CAS_CYCLE_THRESH, CAS_HALF_1]
    rw [if_neg (show ¬(s.casLastCycleT = 0) by omega),
        if_neg (show ¬(t - s.casLastCycleT > 200000) by omega),
        if_neg (show ¬(t - s.casLastCycleT > 2600) by omega), h2,
        if_neg (show ¬(0 + 1 = 2) by decide)]
  | some false =>
    obtain ⟨h1, h2, h3⟩ := h
    simp only [CAS_BIT_PERIOD] at h1
    simp only [onCycleStart, pendingOf, recordBits, List.foldl,
               CAS_IDLE_TIMEOUT, CAS_CYCLE_THRESH]
    rw [if_neg (show ¬(s.casLastCycleT = 0) by omega),
        if_neg (show ¬(t - s.casLastCycleT > 200000) by omega),
        if_pos (show t - s.casLastCycleT > 2600 by omega),
        if_pos h2, recordBit_timing1]

lemma onCycleStart_second (s : BusState) (t : Nat)
    (hlc : s.casLastCycleT = t) (hcnt : s.casRecCycleCount = 1) (ht : 0 < t) :
    onCycleStart s (t + 2 * CAS_HALF_1) =
      { recordBit s true with
        casLastCycleT := t + 2 * CAS_HALF_1,
        casRecCycleCount := 0 } := by
  simp only [onCycleStart, CAS_IDLE_TIMEOUT, CAS_CYCLE_THRESH, CAS_HALF_1]
  rw [if_neg (show ¬(s.casLastCycleT = 0) by omega),
      if_neg (show ¬(t + 2 * 887 - s.casLastCycleT > 200000) by omega),
      if_neg (show ¬(t + 2 * 887 - s.casLastCycleT > 2600) by omega), hcnt,
      if_pos (show 1 + 1 = 2 by decide), recordBit_timing]

def recDrop : List Bool → List Bool
  | [] => []
  | [b] => if b then [true] else []
  | b :: rest => b :: recDrop rest

def lastOr : List Bool → Option Bool → Option Bool
  | [], prev => prev
  | b :: rest, _ => lastOr rest (some b)

def exitCount (bits : List Bool) (prev : Option Bool) : Nat :=
  match lastOr bits prev with
  | some false => 1
  | _ => 0

def endT : List Bool → Nat → Nat → Nat
  | [], _, d => d
  | [b], t, _ => if b then t + 2 * CAS_HALF_1 else t
  | _ :: rest, t, d => endT rest (t + CAS_BIT_PERIOD) d

def recPend (prev : Option Bool) (bits : List Bool) : List Bool :=
  match bits with
  | [] => []
  | _ => pendingOf prev ++ recDrop bits

lemma recordBits_timing (s : BusState) (x c : Nat) (bs : List Bool) :
    recordBits { s with casLastCycleT := x, casRecCycleCount := c } bs =
      { recordBits s bs with casLastCycleT := x, casRecCycleCount := c } := by
  induction bs generalizing s with
  | nil => rfl
  | cons b bs ih =>
    show recordBits (recordBit { s with casLastCycleT := x, casRecCycleCount := c } b) bs = _
    rw [recordBit_timing]
    exact ih (recordBit s b)

lemma recordBits_append (s : BusState) (xs ys : List Bool) :
    recordBits s (xs ++ ys) = recordBits (recordBits s xs) ys :=
  List.foldl_append _ _ _ _

lemma endT_default (bits : List Bool) : ∀ (t d1 d2 : Nat), bits ≠ [] →
    endT bits t d1 = endT bits t d2 := by
  induction bits with
  | nil => intro t d1 d2 h; exact absurd rfl h
  | cons b rest ih =>
    intro t d1 d2 _
    cases rest with
    | nil => rfl
    | cons r rs =>
      show endT (r :: rs) (t + CAS_BIT_PERIOD) d1 = endT (r :: rs) (t + CAS_BIT_PERIOD) d2
      exact ih (t + CAS_BIT_PERIOD) d1 d2 (by simp)

lemma recState_congr (s : BusState) (xs ys : List Bool) (a1 a2 b1 b2 : Nat)
    (h : xs = ys) (ha : a1 = a2) (hb : b1 = b2) :
    ({ recordBits s xs with casLastCycleT := a1, casRecCycleCount := b1 } : BusState) =
    { recordBits s ys with casLastCycleT := a2, casRecCycleCount := b2 } := by
  rw [h, ha, hb]

lemma decode_aux (bits : List Bool) : ∀ (s : BusState) (t : Nat) (prev : Option Bool),
    0 < t → entryOk s t prev →
    decodeEdges s (edgesAux bits t) =
      { recordBits s (recPend prev bits) with
        casLastCycleT := endT bits t s.casLastCycleT,
        casRecCycleCount := exitCount bits prev } := by
  induction bits with
  | nil =>
    intro s t prev ht h
    have hcnt : exitCount [] prev = s.casRecCycleCount := by
      match prev, h with
      | none, ⟨h1, h2⟩ => simpa [exitCount, lastOr] using h2.symm
      | some false, ⟨h1, h2, h3⟩ => simpa [exitCount, lastOr] using h2.symm
      | some true, ⟨h1, h2, h3⟩ => simpa [exitCount, lastOr] using h2.symm
    rw [hcnt]
    rfl
  | cons b rest ih =>
    intro s t prev ht h
    have hs1 := onCycleStart_entry s t prev ht h
    cases b
    · have hedge : edgesAux (false :: rest) t = t :: edgesAux rest (t + CAS_BIT_PERIOD) := by
        simp [edgesAux]
      rw [hedge]
      show decodeEdges (onCycleStart s t) (edgesAux rest (t + CAS_BIT_PERIOD)) = _
      rw [hs1, ih _ (t + CAS_BIT_PERIOD) (some false) (by omega) ⟨rfl, rfl, ht⟩,
          recordBits_timing, ← recordBits_append]
      refine recState_congr s _ _ _ _ _ _ ?_ ?_ ?_
      · cases rest with
        | nil => simp [recPend, recDrop, pendingOf]
        | cons r rs =>
          show pendingOf prev ++ (pendingOf (some false) ++ recDrop (r :: rs)) = _
          simp [recPend, recDrop, pendingOf]
      · cases rest with
        | nil => rfl
        | cons r rs =>
          show endT (r :: rs) (t + CAS_BIT_PERIOD) t =
            endT (r :: rs) (t + CAS_BIT_PERIOD) s.casLastCycleT
          exact endT_default (r :: rs) _ _ _ (by simp)
      · rfl
    · have hedge : edgesAux (true :: rest) t =
          t :: (t + 2 * CAS_HALF_1) :: edgesAux rest (t + CAS_BIT_PERIOD) := by
        simp [edgesAux]
      rw [hedge]
      show decodeEdges (onCycleStart (onCycleStart s t) (t + 2 * CAS_HALF_1))
            (edgesAux rest (t + CAS_BIT_PERIOD)) = _
      rw [hs1, onCycleStart_second _ t rfl rfl ht, recordBit_timing]
      rw [ih _ (t + CAS_BIT_PERIOD) (some true) (by omega)
            ⟨by show t + 2 * CAS_HALF_1 + 2 * CAS_HALF_1 = t + CAS_BIT_PERIOD
                simp only [CAS_HALF_1, CAS_BIT_PERIOD],
              rfl,
              by show 0 < t + 2 * CAS_HALF_1
                 omega⟩,
          recordBits_timing, recordBits_timing]
      have hone : recordBit (recordBits s (pendingOf prev)) true =
          recordBits s (pendingOf prev ++ [true]) := by
        rw [recordBits_append]
        rfl
      rw [hone, ← recordBits_append]
      refine recState_congr s _ _ _ _ _ _ ?_ ?_ ?_
      · cases rest with
        | nil => simp [recPend, recDrop, pendingOf]
        | cons r rs =>
          show (pendingOf prev ++ [true]) ++ (pendingOf (some true) ++ recDrop (r :: rs)) = _
          simp [recPend, recDrop, pendingOf]
      · cases rest with
        | nil => rfl
        | cons r rs =>
          show endT (r :: rs) (t + CAS_BIT_PERIOD) (t + 2 * CAS_HALF_1) =
            endT (r :: rs) (t + CAS_BIT_PERIOD) s.casLastCycleT
          exact endT_default (r :: rs) _ _ _ (by simp)
      · rfl

lemma shiftLeft_one_or (y m : Nat) (hm : m ≤ 1) : (y <<< 1) ||| m = 2 * y + m := by
  rcases (by omega : m = 0 ∨ m = 1) with h | h <;> subst h
  · rw [Nat.or_zero, Nat.shiftLeft_eq, pow_one, Nat.mul_comm, Nat.add_zero]
  · apply Nat.eq_of_testBit_eq
    intro i
    rw [Nat.testBit_lor]
    cases i with
    | zero =>
      have h1 : (y * 2) % 2 = 0 := by omega
      have h2 : (2 * y + 1) % 2 = 1 := by omega
      simp [Nat.testBit_zero, Nat.shiftLeft_eq, h1, h2]
    | succ i =>
      rw [Nat.testBit_succ, Nat.testBit_succ, Nat.testBit_succ]
      have e1 : (y <<< 1) / 2 = y := by rw [Nat.shiftLeft_eq, pow_one]; omega
      have e2 : (2 * y + 1) / 2 = y := by omega
      have e3 : (1 : Nat) / 2 = 0 := rfl
      rw [e1, e2, e3]
      simp [Nat.zero_testBit]

lemma shiftLeft_one_or_and (y x : Nat) :
    (y <<< 1) ||| (x &&& 1) = 2 * y + (x &&& 1) :=
  shiftLeft_one_or y _ (by rw [Nat.and_one_is_mod]; omega)

lemma bitIf_and_one (x : Nat) :
    (if (x &&& 1 != 0) = true then 1 else 0) = x &&& 1 := by
  rw [Nat.and_one_is_mod]
  rcases Nat.mod_two_eq_zero_or_one x with h | h <;> rw [h] <;> rfl

lemma recordBit_mid (s : BusState) (bit : Bool) (h8 : s.casRecBitCount + 1 ≠ 8) :
    recordBit s bit =
      { s with casRecByte := ((s.casRecByte <<< 1) ||| (if bit then 1 else 0)) % 256,
               casRecBitCount := s.casRecBitCount + 1 } := by
  unfold recordBit
  rw [if_neg h8]

lemma recordBit_last (s : BusState) (bit : Bool) (h8 : s.casRecBitCount + 1 = 8) :
    recordBit s bit =
      { s with
        casRecData :=
          s.casRecData ++ [((s.casRecByte <<< 1) ||| (if bit then 1 else 0)) % 256],
        casRecByte := 0, casRecBitCount := 0 } := by
  unfold recordBit
  rw [if_pos h8]

set_option maxHeartbeats 1000000 in
lemma recordBits_byte (s : BusState) (b : Nat) (hb : b < 256)
    (h1 : s.casRecBitCount = 0) (h2 : s.casRecByte = 0) :
    recordBits s (bitsOfByte b) =
      { s with casRecData := s.casRecData ++ [b],
               casRecByte := 0, casRecBitCount := 0 } := by
  simp only [bitsOfByte, recordBits, List.foldl]
  rw [recordBit_mid _ ((b >>> 7) &&& 1 != 0) (show s.casRecBitCount + 1 ≠ 8 by omega)]
  rw [recordBit_mid _ ((b >>> 6) &&& 1 != 0) (show s.casRecBitCount + 1 + 1 ≠ 8 by omega)]
  rw [recordBit_mid _ ((b >>> 5) &&& 1 != 0) (show s.casRecBitCount + 1 + 1 + 1 ≠ 8 by omega)]
  rw [recordBit_mid _ ((b >>> 4) &&& 1 != 0)
    (show s.casRecBitCount + 1 + 1 + 1 + 1 ≠ 8 by omega)]
  rw [recordBit_mid _ ((b >>> 3) &&& 1 != 0)
    (show s.casRecBitCount + 1 + 1 + 1 + 1 + 1 ≠ 8 by omega)]
  rw [recordBit_mid _ ((b >>> 2) &&& 1 != 0)
    (show s.casRecBitCount + 1 + 1 + 1 + 1 + 1 + 1 ≠ 8 by omega)]
  rw [recordBit_mid _ ((b >>> 1) &&& 1 != 0)
    (show s.casRecBitCount + 1 + 1 + 1 + 1 + 1 + 1 + 1 ≠ 8 by omega)]
  rw [recordBit_last _ (b &&& 1 != 0)
    (show s.casRecBitCount + 1 + 1 + 1 + 1 + 1 + 1 + 1 + 1 = 8 by omega)]
  simp only [bitIf_and_one, shiftLeft_one_or_and, h1, h2]
  simp only [BusState.mk.injEq, and_true, true_and,
             List.append_right_inj, List.cons.injEq]
  simp only [Nat.shiftRight_eq_div_pow, Nat.and_one_is_mod]
  have e1 : (2:Nat)^1 = 2 := by norm_num
  have e2 : (2:Nat)^2 = 4 := by norm_num
  have e3 : (2:Nat)^3 = 8 := by norm_num
  have e4 : (2:Nat)^4 = 16 := by norm_num
  have e5 : (2:Nat)^5 = 32 := by norm_num
  have e6 : (2:Nat)^6 = 64 := by norm_num
  have e7 : (2:Nat)^7 = 128 := by norm_num
  rw [e1, e2, e3, e4, e5, e6, e7]
  omega

lemma withByteCnt_eta (s : BusState) (h1 : s.casRecBitCount = 0) (h2 : s.casRecByte = 0)
    (d : List Nat) :
    ({ s with casRecData := d, casRecByte := 0, casRecBitCount := 0 } : BusState) =
    { s with casRecData := d } := by
  cases s
  dsimp only at h1 h2
  subst h1
  subst h2
  rfl

lemma recordBits_stream (data : List Nat) : ∀ s : BusState, (∀ x ∈ data, x < 256) →
    s.casRecBitCount = 0 → s.casRecByte = 0 →
    recordBits s (bitsOfStream data) = { s with casRecData := s.casRecData ++ data } := by
  induction data with
  | nil =>
    intro s hb h1 h2
    show s = _
    rw [List.append_nil]
  | cons b rest ih =>
    intro s hb h1 h2
    have hsplit : bitsOfStream (b :: rest) = bitsOfByte b ++ bitsOfStream rest := by
      simp [bitsOfStream]
    rw [hsplit, recordBits_append, recordBits_byte s b (hb b (by simp)) h1 h2,
        withByteCnt_eta s h1 h2]
    rw [ih { s with casRecData := s.casRecData ++ [b] }
          (fun x hx => hb x (by simp [hx])) h1 h2]
    simp only [BusState.mk.injEq, and_true, true_and, List.append_assoc,
               List.singleton_append]

lemma recDrop_spec : ∀ bits : List Bool,
    recDrop bits ++ (if exitCount bits none = 1 then [false] else []) = bits := by
  intro bits
  induction bits with
  | nil => rfl
  | cons b rest ih =>
    cases rest with
    | nil => cases b <;> rfl
    | cons r rs =>
      show (b :: recDrop (r :: rs)) ++ _ = b :: r :: rs
      rw [List.cons_append,
          show exitCount (b :: r :: rs) none = exitCount (r :: rs) none from rfl, ih]

lemma decode_flush_data (data : List Nat) (hb : ∀ x ∈ data, x < 256)
    (s : BusState) (h0 : s.casLastCycleT = 0) (hc : s.casRecCycleCount = 0)
    (h1 : s.casRecBitCount = 0) (h2 : s.casRecByte = 0) :
    (flushRecording (decodeEdges s (edgesAux (bitsOfStream data) CAS_HALF_0))).casRecData =
      s.casRecData ++ data := by
  have hrun := decode_aux (bitsOfStream data) s CAS_HALF_0 none (by decide) ⟨h0, hc⟩
  rw [hrun]
  have hpend : recPend none (bitsOfStream data) = recDrop (bitsOfStream data) := by
    cases bitsOfStream data with
    | nil => rfl
    | cons x xs => simp [recPend, pendingOf]
  rw [hpend]
  have hone : ∀ X : List Bool, recordBit (recordBits s X) false = recordBits s (X ++ [false]) := by
    intro X
    rw [recordBits_append]
    rfl
  unfold flushRecording
  dsimp only
  by_cases hC : exitCount (bitsOfStream data) none = 1
  · rw [if_pos hC, recordBit_timing, hone]
    have hdrop : recDrop (bitsOfStream data) ++ [false] = bitsOfStream data := by
      have := recDrop_spec (bitsOfStream data)
      rw [if_pos hC] at this
      exact this
    rw [hdrop, recordBits_stream data s hb h1 h2]
    dsimp only
    rw [if_neg (show ¬(s.casRecBitCount > 0) by omega)]
  · rw [if_neg hC]
    have hdrop : recDrop (bitsOfStream data) = bitsOfStream data := by
      have := recDrop_spec (bitsOfStream data)
      rw [if_neg hC, List.append_nil] at this
      exact this
    rw [hdrop, recordBits_stream data s hb h1 h2]
    dsimp only
    rw [if_neg (show ¬(s.casRecBitCount > 0) by omega)]


lemma bitsOfStream_length (data : List Nat) :
    (bitsOfStream data).length = 8 * data.length := by
  induction data with
  | nil => rfl
  | cons b rest ih =>
    show (bitsOfByte b ++ bitsOfStream rest).length = _
    rw [List.length_append, ih]
    show 8 + 8 * rest.length = 8 * (rest.length + 1)
    omega

lemma bitsOfStream_getD (data : List Nat) : ∀ k : Nat, k < 8 * data.length →
    (bitsOfStream data).getD k false =
      ((data.getD (k / 8) 0 >>> (7 - k % 8)) &&& 1 != 0) := by
  induction data with
  | nil =>
    intro k hk
    simp at hk
  | cons b rest ih =>
    intro k hk
    have hsplit : bitsOfStream (b :: rest) = bitsOfByte b ++ bitsOfStream rest := rfl
    by_cases h8 : k < 8
    · rw [hsplit, List.getD_append _ _ _ _ (by simp [bitsOfByte]; omega)]
      have hd : (b :: rest).getD (k / 8) 0 = b := by
        rw [show k / 8 = 0 by omega]
        rfl
      rw [hd, show k % 8 = k by omega]
      interval_cases k <;> rfl
    · rw [hsplit, List.getD_append_right _ _ _ _ (by simp [bitsOfByte]; omega)]
      have hlen : (bitsOfByte b).length = 8 := by simp [bitsOfByte]
      rw [hlen, ih (k - 8) (by simp at hk; omega)]
      have hd : (b :: rest).getD (k / 8) 0 = rest.getD ((k - 8) / 8) 0 := by
        rw [show k / 8 = (k - 8) / 8 + 1 by omega]
        rfl
      rw [hd, show k % 8 = (k - 8) % 8 by omega]

lemma edgesAux_mem (bits : List Bool) : ∀ (t0 x : Nat),
    x ∈ edgesAux bits t0 ↔
      ∃ k, k < bits.length ∧
        ((x = t0 + CAS_BIT_PERIOD * k) ∨
         (bits.getD k false = true ∧ x = t0 + CAS_BIT_PERIOD * k + 2 * CAS_HALF_1)) := by
  induction bits with
  | nil =>
    intro t0 x
    simp [edgesAux]
  | cons b rest ih =>
    intro t0 x
    constructor
    · intro hx
      unfold edgesAux at hx
      by_cases hb : b
      · rw [if_pos hb] at hx
        rcases List.mem_cons.mp hx with h | hx
        · exact ⟨0, by simp, Or.inl (by omega)⟩
        rcases List.mem_cons.mp hx with h | hx
        · exact ⟨0, by simp, Or.inr ⟨by simpa using hb, by omega⟩⟩
        · obtain ⟨k, hk, hc⟩ := (ih (t0 + CAS_BIT_PERIOD) x).mp hx
          refine ⟨k + 1, by simp; omega, ?_⟩
          rcases hc with h | ⟨hbit, h⟩
          · exact Or.inl (by simp only [CAS_BIT_PERIOD] at *; omega)
          · exact Or.inr ⟨by simpa using hbit, by simp only [CAS_BIT_PERIOD, CAS_HALF_1] at *; omega⟩
      · rw [if_neg hb] at hx
        rcases List.mem_cons.mp hx with h | hx
        · exact ⟨0, by simp, Or.inl (by omega)⟩
        · obtain ⟨k, hk, hc⟩ := (ih (t0 + CAS_BIT_PERIOD) x).mp hx
          refine ⟨k + 1, by simp; omega, ?_⟩
          rcases hc with h | ⟨hbit, h⟩
          · exact Or.inl (by simp only [CAS_BIT_PERIOD] at *; omega)
          · exact Or.inr ⟨by simpa using hbit, by simp only [CAS_BIT_PERIOD, CAS_HALF_1] at *; omega⟩
    · rintro ⟨k, hk, hc⟩
      unfold edgesAux
      cases k with
      | zero =>
        rcases hc with h | ⟨hbit, h⟩
        · have hx : x = t0 := by simp only [CAS_BIT_PERIOD] at h; omega
          subst hx
          by_cases hb : b
          · rw [if_pos hb]
            exact List.mem_cons_self _ _
          · rw [if_neg hb]
            exact List.mem_cons_self _ _
        · have hb : b = true := by simpa using hbit
          rw [if_pos hb]
          have hx : x = t0 + 2 * CAS_HALF_1 := by
            simp only [CAS_BIT_PERIOD, CAS_HALF_1] at *
            omega
          subst hx
          exact List.mem_cons.mpr (Or.inr (List.mem_cons_self _ _))
      | succ k =>
        have hmem : x ∈ edgesAux rest (t0 + CAS_BIT_PERIOD) := by
          refine (ih (t0 + CAS_BIT_PERIOD) x).mpr ⟨k, by simp at hk; omega, ?_⟩
          rcases hc with h | ⟨hbit, h⟩
          · exact Or.inl (by simp only [CAS_BIT_PERIOD] at *; omega)
          · exact Or.inr ⟨by simpa using hbit, by simp only [CAS_BIT_PERIOD, CAS_HALF_1] at *; omega⟩
        by_cases hb : b
        · rw [if_pos hb]
          exact List.mem_cons.mpr (Or.inr (List.mem_cons.mpr (Or.inr hmem)))
        · rw [if_neg hb]
          exact List.mem_cons.mpr (Or.inr hmem)

lemma halfOf_and_one (x : Nat) :
    halfOf ((x &&& 1) != 0) = if (x &&& 1) = 1 then CAS_HALF_1 else CAS_HALF_0 := by
  rw [Nat.and_one_is_mod]
  rcases Nat.mod_two_eq_zero_or_one x with h | h <;> rw [h] <;> rfl

/-- The playback signal after the lead-in, expressed through the stream bit
and the offset within its bit period. -/
lemma signal_formula (data : List Nat) (q : Nat) (hq : q < 28384 * data.length) :
    cassetteSignal data (CAS_HALF_0 + q) =
      bitWave ((bitsOfStream data).getD (q / 3548) false) (q % 3548) := by
  unfold cassetteSignal
  rw [if_neg (show ¬(CAS_HALF_0 + q < CAS_HALF_0) by simp)]
  simp only [CAS_BIT_PERIOD, CAS_HALF_0, CAS_HALF_1, Nat.add_sub_cancel_left]
  rw [bitsOfStream_getD data (q / 3548) (by omega)]
  rw [show (3548 * 8 : Nat) = 28384 from rfl]
  rw [show q % 28384 % 3548 = q % 3548 by omega]
  rw [show q % 28384 / 3548 = q / 3548 % 8 by omega]
  rw [show q / 28384 = q / 3548 / 8 by omega]
  rw [bitWave, halfOf_and_one]
  simp only [CAS_HALF_0, CAS_HALF_1]

lemma bitWave_zero (b : Bool) : bitWave b 0 = true := by
  cases b <;> rfl

lemma bitWave_last (b : Bool) : bitWave b 3547 = false := by
  cases b <;> decide

lemma bitWave_false_val (off : Nat) (h : off < 3548) :
    bitWave false off = decide (off < 1774) := by
  simp only [bitWave, halfOf, CAS_HALF_0, if_false, Bool.false_eq_true]
  rw [decide_eq_decide]
  omega

lemma bitWave_true_val (off : Nat) (h : off < 3548) :
    bitWave true off = decide (off < 887 ∨ (1774 ≤ off ∧ off < 2661)) := by
  simp only [bitWave, halfOf, CAS_HALF_1, if_true]
  rw [decide_eq_decide]
  omega

/-- A tick is a rising edge of the playback waveform exactly when it is in
the edge list: the start of every bit period, plus the second-cycle start of
every 1-bit. -/
lemma edge_iff (data : List Nat) (x : Nat) (hx : 0 < x)
    (hlt : x < CAS_HALF_0 + CAS_BIT_PERIOD * 8 * data.length) :
    (cassetteSignal data x = true ∧ cassetteSignal data (x - 1) = false) ↔
      x ∈ risingEdges data := by
  have hlen : (bitsOfStream data).length = 8 * data.length := bitsOfStream_length data
  simp only [CAS_HALF_0, CAS_BIT_PERIOD] at hlt
  rw [risingEdges, edgesAux_mem]
  by_cases hlead : x < 1774
  · have hsig : cassetteSignal data x = false := by
      unfold cassetteSignal
      rw [if_pos (show x < CAS_HALF_0 by simp only [CAS_HALF_0]; omega)]
    constructor
    · rintro ⟨h1, _⟩
      rw [hsig] at h1
      exact absurd h1 (by simp)
    · rintro ⟨k, hk, hc⟩
      exfalso
      rcases hc with h | ⟨_, h⟩ <;>
        · simp only [CAS_HALF_0, CAS_BIT_PERIOD, CAS_HALF_1] at h
          omega
  · obtain ⟨q, rfl⟩ : ∃ q, x = CAS_HALF_0 + q :=
      ⟨x - 1774, by simp only [CAS_HALF_0]; omega⟩
    simp only [CAS_HALF_0] at hlt
    have hq : q < 28384 * data.length := by omega
    rw [signal_formula data q hq]
    rcases Nat.eq_zero_or_pos q with rfl | hq1
    · have hprev : cassetteSignal data (CAS_HALF_0 + 0 - 1) = false := by
        unfold cassetteSignal
        rw [if_pos (show CAS_HALF_0 + 0 - 1 < CAS_HALF_0 by simp only [CAS_HALF_0]; omega)]
      rw [hprev, show (0 : Nat) / 3548 = 0 from rfl, show (0 : Nat) % 3548 = 0 from rfl,
          bitWave_zero]
      constructor
      · intro _
        refine ⟨0, by rw [hlen]; omega, Or.inl ?_⟩
        simp only [CAS_HALF_0, CAS_BIT_PERIOD]
      · intro _
        exact ⟨rfl, rfl⟩
    · have hargs : CAS_HALF_0 + q - 1 = CAS_HALF_0 + (q - 1) := by
        simp only [CAS_HALF_0]
        omega
      rw [hargs, signal_formula data (q - 1) (by omega)]
      by_cases hoff0 : q % 3548 = 0
      · have hk1 : 1 ≤ q / 3548 := by omega
        have e1 : (q - 1) / 3548 = q / 3548 - 1 := by omega
        have e2 : (q - 1) % 3548 = 3547 := by omega
        rw [hoff0, bitWave_zero, e1, e2, bitWave_last]
        constructor
        · intro _
          refine ⟨q / 3548, by rw [hlen]; omega, Or.inl ?_⟩
          simp only [CAS_HALF_0, CAS_BIT_PERIOD]
          omega
        · intro _
          exact ⟨rfl, rfl⟩
      · by_cases hoff17 : q % 3548 = 1774
        · have e1 : (q - 1) / 3548 = q / 3548 := by omega
          have e2 : (q - 1) % 3548 = 1773 := by omega
          rw [hoff17, e1, e2]
          cases hb : (bitsOfStream data).getD (q / 3548) false
          · rw [bitWave_false_val _ (by omega), bitWave_false_val _ (by omega)]
            constructor
            · rintro ⟨h1, _⟩
              exact absurd h1 (by decide)
            · rintro ⟨k, hk, hc⟩
              exfalso
              rcases hc with h | ⟨hbit, h⟩
              · simp only [CAS_HALF_0, CAS_BIT_PERIOD] at h
                omega
              · have hkq : k = q / 3548 := by
                  simp only [CAS_HALF_0, CAS_BIT_PERIOD, CAS_HALF_1] at h
                  omega
                rw [hkq, hb] at hbit
                exact absurd hbit (by simp)
          · rw [bitWave_true_val _ (by omega), bitWave_true_val _ (by omega)]
            constructor
            · intro _
              refine ⟨q / 3548, by rw [hlen]; omega, Or.inr ⟨hb, ?_⟩⟩
              simp only [CAS_HALF_0, CAS_BIT_PERIOD, CAS_HALF_1]
              omega
            · intro _
              exact ⟨by decide, by decide⟩
        · have e1 : (q - 1) / 3548 = q / 3548 := by omega
          have e2 : (q - 1) % 3548 = q % 3548 - 1 := by omega
          rw [e1, e2]
          constructor
          · rintro ⟨h1, h2⟩
            exfalso
            cases hb : (bitsOfStream data).getD (q / 3548) false <;> rw [hb] at h1 h2
            · rw [bitWave_false_val _ (by omega)] at h1
              rw [bitWave_false_val _ (by omega)] at h2
              simp only [decide_eq_true_eq] at h1
              simp only [decide_eq_false_iff_not] at h2
              omega
            · rw [bitWave_true_val _ (by omega)] at h1
              rw [bitWave_true_val _ (by omega)] at h2
              simp only [decide_eq_true_eq] at h1
              simp only [decide_eq_false_iff_not] at h2
              omega
          · rintro ⟨k, hk, hc⟩
            exfalso
            rcases hc with h | ⟨_, h⟩ <;>
              · simp only [CAS_HALF_0, CAS_BIT_PERIOD, CAS_HALF_1] at h
                omega


/-- C8: cassette round trip. Part one characterises the rising edges of the
playback waveform from `get_cassette_signal`: within the stream (after the
lead-in and before the zero padding) the signal rises exactly at the start
of every bit period and at the second-cycle start of every 1-bit. Part two:
driving `on_cycle_start` at exactly those edge ticks from the reset bus and
flushing leaves `cas_rec_data` equal to the original byte stream — the
encoder composed with the decoder is the identity on whole bytes. -/
theorem C8_cassette_roundtrip (data : List Nat) (hbytes : ∀ b ∈ data, b < 256) :
    (∀ t, 0 < t → t < CAS_HALF_0 + CAS_BIT_PERIOD * 8 * data.length →
      ((cassetteSignal data t = true ∧ cassetteSignal data (t - 1) = false) ↔
        t ∈ risingEdges data)) ∧
    (flushRecording (decodeEdges busInit (risingEdges data))).casRecData = data := by
  constructor
  · intro t ht hlt
    exact edge_iff data t ht hlt
  · have h := decode_flush_data data hbytes busInit rfl rfl rfl rfl
    rw [show busInit.casRecData = [] from rfl, List.nil_append] at h
    exact h

/-- C8 witness: the round trip at the one-byte stream `0x55`, plus the first
rising edge produced via the edge characterisation. -/
theorem C8_cassette_roundtrip_witness :
    (flushRecording (decodeEdges busInit (risingEdges [0x55]))).casRecData = [0x55] ∧
    (cassetteSignal [0x55] CAS_HALF_0 = true ∧
     cassetteSignal [0x55] (CAS_HALF_0 - 1) = false) :=
  ⟨(C8_cassette_roundtrip [0x55] (by decide)).2,
   ((C8_cassette_roundtrip [0x55] (by decide)).1 CAS_HALF_0 (by decide)
      (by decide)).mpr (by decide)⟩

end Mal80
